import Mathlib

/-!
Inventory service: reservation engine and outbox relay.

A shallow embedding of the reservation logic and the outbox relay of the
inventory service (`internal/domain`, `internal/application`,
`internal/infrastructure/db`, `internal/infrastructure/outbox`) and theorems
about it.

Modelling conventions

* Go `int` quantities are mathematical integers (`Int`): stock counts stay far
  away from the 64-bit range, so wrap-around is not modelled.
* `uuid.UUID` is `Nat`, `uuid.Nil` is `0`. `time.Time` is `Nat` with the zero
  time `0`; every `time.Now()` read during one call yields `Env.now`.
* Everything the code obtains from outside the process during one call is a
  field of `Env`: the clock, the results of `uuid.New()`, `json.Marshal` and
  `json.Unmarshal`, the order in which `range` walks a Go map, and which store
  calls fail.
* The table `inventory_stock_items` is a map from its `sku` column to the other
  columns: the upsert's `on conflict (sku)` relies on `sku` being unique.
  `inventory_reservations` (with the lines of each reservation kept inside it)
  and `outbox_messages` are lists of rows in insertion order. The id of an
  outbox row is its key; statements that follow one row through `Save` take
  the ids of the table to be distinct.
* A Go function that mutates the stores and returns `error` becomes a function
  from the state to `Option Err × State`; `none` is the `nil` error.
* A `DispatchOnce` pass gets its own environment `DispatchEnv`; its result
  records, besides count, error and state, the calls of `Publish` and `Save`
  in order.
-/

namespace Inventory

/-! ## Domain (`internal/domain`) -/

abbrev UUID := Nat

/-- The value `uuid.Nil`. -/
def uuidNil : UUID := 0

/-- The struct `domain.StockItem`. -/
structure StockItem where
  ID : UUID
  Sku : String
  Available : Int
  Reserved : Int
  UpdatedAtUtc : Nat
deriving DecidableEq, Repr

namespace StockItem

/-- Go `func (s *StockItem) CanReserve(qty int) bool` -/
def CanReserve (s : StockItem) (qty : Int) : Bool :=
  decide (qty > 0) && decide (s.Available ≥ qty)

/-- Go `func (s *StockItem) Reserve(qty int)`; `now` is the clock reading. -/
def Reserve (now : Nat) (s : StockItem) (qty : Int) : StockItem :=
  { s with Available := s.Available - qty, Reserved := s.Reserved + qty, UpdatedAtUtc := now }

/-- Go `func (s *StockItem) Release(qty int)`; `now` is the clock reading. -/
def Release (now : Nat) (s : StockItem) (qty : Int) : StockItem :=
  { s with
    Available := s.Available + qty
    Reserved := if s.Reserved ≥ qty then s.Reserved - qty else s.Reserved
    UpdatedAtUtc := now }

end StockItem

/-- Go `func NewStockItem(sku string, available int) *StockItem`; `id` is the
result of `uuid.New()`, `now` the clock reading. -/
def NewStockItem (id : UUID) (now : Nat) (sku : String) (available : Int) : StockItem :=
  { ID := id, Sku := sku, Available := available, Reserved := 0, UpdatedAtUtc := now }

abbrev ReservationStatus := String

def ReservationActive : ReservationStatus := "ACTIVE"

def ReservationReleased : ReservationStatus := "RELEASED"

/-- The struct `domain.ReservationLine`. -/
structure ReservationLine where
  ID : UUID
  ReservationID : UUID
  Sku : String
  Quantity : Int
deriving DecidableEq, Repr

/-- The struct `domain.StockReservation`; a nil `ReleasedAtUtc` is `none`. -/
structure StockReservation where
  ID : UUID
  OrderID : UUID
  UserID : UUID
  Status : ReservationStatus
  ReservedAtUtc : Nat
  ReleasedAtUtc : Option Nat
  Lines : List ReservationLine
deriving DecidableEq, Repr

/-- Go `func (r *StockReservation) MarkReleased()` -/
def StockReservation.MarkReleased (now : Nat) (r : StockReservation) : StockReservation :=
  if r.Status = ReservationReleased then r
  else { r with Status := ReservationReleased, ReleasedAtUtc := some now }

/-- The struct `domain.OutboxMessage`; its field `Type` is `Type_` here. -/
structure OutboxMessage where
  ID : UUID
  Type_ : String
  PayloadJSON : String
  OccurredAtUtc : Int
  RetryCount : Int
  ProcessedAtUtc : Option Int
deriving DecidableEq, Repr

/-- The struct `domain.OrderPlacedLine`. -/
structure OrderPlacedLine where
  Sku : String
  Quantity : Int
deriving DecidableEq, Repr

/-- The struct `domain.OrderPlacedPayload`. -/
structure OrderPlacedPayload where
  OrderID : UUID
  UserID : UUID
  Lines : List OrderPlacedLine
deriving DecidableEq, Repr

/-- The struct `domain.StockReservedLine`. -/
structure StockReservedLine where
  Sku : String
  Quantity : Int
deriving DecidableEq, Repr

/-- The struct `domain.ProductCreatedPayload`, with the two fields the handler
reads; the product's ids, name, slug, price, dates, flags and image urls are
decoded and never used. -/
structure ProductCreatedPayload where
  Sku : String
  StockQuantity : Int
deriving DecidableEq, Repr

/-- The envelope `primitives.IntegrationEventEnvelope` of the messaging
library, with the fields this service reads or sets: type, payload and routing
key. -/
structure IntegrationEventEnvelope where
  Type_ : String
  PayloadJSON : String
  RoutingKey : String
deriving DecidableEq, Repr

/-- A value of the interface `primitives.Event` as a handler receives it: an
integration envelope, or some other event. -/
inductive InboundEvent where
  | envelope (e : IntegrationEventEnvelope)
  | other
deriving DecidableEq, Repr

/-- The three outgoing events of `domain/events.go`, without the fields of the
embedded `primitives.BaseEvent` other than the routing key. -/
inductive Event where
  | StockReserved (OrderID UserID : UUID) (ReservedAtUtc : Nat) (Lines : List StockReservedLine)
  | StockReservationFailed (OrderID UserID : UUID) (Reason : String) (FailedAtUtc : Nat)
  | CatalogStockAdjusted (Sku : String) (AvailableQuantity ReservedQuantity : Int)
      (Reason : String) (OccurredAtUtc : Nat)
deriving DecidableEq, Repr

/-- The routing key each constructor function sets with `SetRoutingKey`. -/
def Event.GetRoutingKey : Event → String
  | .StockReserved .. => "StockReserved"
  | .StockReservationFailed .. => "StockReservationFailed"
  | .CatalogStockAdjusted .. => "CatalogStockAdjusted"

/-- Go `func NewStockReservedEvent(orderID, userID, lines)` -/
def NewStockReservedEvent (now : Nat) (orderID userID : UUID) (lines : List StockReservedLine) :
    Event :=
  .StockReserved orderID userID now lines

/-- Go `func NewStockReservationFailedEvent(orderID, userID, reason)` -/
def NewStockReservationFailedEvent (now : Nat) (orderID userID : UUID) (reason : String) :
    Event :=
  .StockReservationFailed orderID userID reason now

/-- Go `func NewCatalogStockAdjustedEvent(sku, available, reserved, reason)` -/
def NewCatalogStockAdjustedEvent (now : Nat) (sku : String) (available reserved : Int)
    (reason : String) : Event :=
  .CatalogStockAdjusted sku available reserved reason now

/-! ## Environment and stores -/

/-- The errors a handler can return: the validation error of
`HandleOrderPlaced` and one error per failing external call. -/
inductive Err where
  | missingOrderId
  | getByOrderID
  | getBySkus
  | upsertMany
  | insert
  | update
  | marshal
  | outboxInsert
  | getPendingBatch
  | emptyMessageID
  | save
deriving DecidableEq, Repr

/-- Which store calls of one handler call fail. `outboxInsert k` is about the
`k`-th `Enqueue` of the call (counted from 0). -/
structure Faults where
  getByOrderID : Bool
  getBySkus : Bool
  upsertMany : Bool
  insert : Bool
  update : Bool
  outboxInsert : Nat → Bool

/-- All store calls succeed. -/
def noFaults : Faults :=
  ⟨false, false, false, false, false, fun _ => false⟩

/-- The order in which `for _, item := range stockMap` visits the entries of a
Go map: some rearrangement of the entries. -/
structure MapOrder where
  iter : List StockItem → List StockItem
  perm : ∀ l, (iter l).Perm l

/-- What one handler call obtains from outside. -/
structure Env where
  now : Nat
  resID : UUID
  lineID : Nat → UUID
  msgID : Nat → UUID
  stockRowID : Nat → UUID
  resRowID : UUID
  lineRowID : Nat → UUID
  msgRowID : Nat → UUID
  itemID : UUID
  marshal : Event → Option String
  unmarshalProduct : String → Option ProductCreatedPayload
  rangeOrder : MapOrder
  fault : Faults

/-- One row of `inventory_stock_items` without its `sku` column. -/
structure StockRow where
  ID : UUID
  Available : Int
  Reserved : Int
  UpdatedAtUtc : Nat
deriving DecidableEq, Repr

/-- The three tables. -/
structure State where
  stock : String → Option StockRow
  reservations : List StockReservation
  outbox : List OutboxMessage

/-- A Go `map[string]*StockItem`: its entries, keyed by `Sku`, no key twice. -/
abbrev StockMap := List StockItem

/-- The lookup `stockMap[sku]` with its `ok` flag. -/
def StockMap.get (m : StockMap) (sku : String) : Option StockItem :=
  m.find? (fun it => it.Sku = sku)

/-- A method call through the pointer `stockMap[sku]`. -/
def StockMap.modify (m : StockMap) (sku : String) (f : StockItem → StockItem) : StockMap :=
  m.map (fun it => if it.Sku = sku then f it else it)

/-- The row of `sku` as the struct that `rows.Scan` fills. -/
def StockRow.toItem (sku : String) (r : StockRow) : StockItem :=
  ⟨r.ID, sku, r.Available, r.Reserved, r.UpdatedAtUtc⟩

/-- The map `GetBySkus` builds from the rows of `select ... where sku = any($1)`:
one entry for each sku of `skus` that has a row. -/
def selectBySkus (st : State) (skus : List String) : StockMap :=
  skus.dedup.filterMap (fun k => (st.stock k).map (StockRow.toItem k))

/-- Method `PgStockItemRepository.GetBySkus` -/
def GetBySkus (env : Env) (st : State) (skus : List String) : Except Err StockMap :=
  if skus = [] then .ok []
  else if env.fault.getBySkus then .error .getBySkus
  else .ok (selectBySkus st skus)

/-- One `stmt.ExecContext` of `UpsertMany`: insert the row, or on a row with
the same sku overwrite available, reserved and updated_at. -/
def upsertRow (env : Env) (i : Nat) (tbl : String → Option StockRow) (it : StockItem) :
    String → Option StockRow :=
  fun k =>
    if k = it.Sku then
      let upd := if it.UpdatedAtUtc = 0 then env.now else it.UpdatedAtUtc
      match tbl k with
      | some row =>
        some { row with Available := it.Available, Reserved := it.Reserved, UpdatedAtUtc := upd }
      | none =>
        some ⟨if it.ID = uuidNil then env.stockRowID i else it.ID, it.Available, it.Reserved, upd⟩
    else tbl k

/-- The loop of `UpsertMany` from item number `i` on. -/
def upsertRows (env : Env) : Nat → (String → Option StockRow) → List StockItem →
    String → Option StockRow
  | _, tbl, [] => tbl
  | i, tbl, it :: rest => upsertRows env (i + 1) (upsertRow env i tbl it) rest

/-- Method `PgStockItemRepository.UpsertMany`: one transaction, all rows or none. -/
def UpsertMany (env : Env) (st : State) (items : List StockItem) : Option Err × State :=
  if items = [] then (none, st)
  else if env.fault.upsertMany then (some .upsertMany, st)
  else (none, { st with stock := upsertRows env 0 st.stock items })

/-- Method `PgStockReservationRepository.GetByOrderID`: the first reservation row of
the order with its lines, `none` (Go `nil, nil`) when there is no such row. -/
def GetByOrderID (env : Env) (st : State) (orderID : UUID) :
    Except Err (Option StockReservation) :=
  if env.fault.getByOrderID then .error .getByOrderID
  else .ok (st.reservations.find? (fun r => r.OrderID = orderID))

/-- The line rows `Insert` writes for reservation `resID`, from line number
`i` on. -/
def insertLines (env : Env) (resID : UUID) : Nat → List ReservationLine → List ReservationLine
  | _, [] => []
  | i, l :: rest =>
    ⟨if l.ID = uuidNil then env.lineRowID i else l.ID, resID, l.Sku, l.Quantity⟩ ::
      insertLines env resID (i + 1) rest

/-- Method `PgStockReservationRepository.Insert`: one transaction writing the
reservation row and its line rows. -/
def Insert (env : Env) (st : State) (res : StockReservation) : Option Err × State :=
  if env.fault.insert then (some .insert, st)
  else
    let id := if res.ID = uuidNil then env.resRowID else res.ID
    let row := { res with ID := id, Lines := insertLines env id 0 res.Lines }
    (none, { st with reservations := st.reservations ++ [row] })

/-- Method `PgStockReservationRepository.Update`: sets status and released_at of the
rows with the reservation's id. -/
def Update (env : Env) (st : State) (res : StockReservation) : Option Err × State :=
  if env.fault.update then (some .update, st)
  else
    (none, { st with
      reservations := st.reservations.map (fun r =>
        if r.ID = res.ID then { r with Status := res.Status, ReleasedAtUtc := res.ReleasedAtUtc }
        else r) })

/-- Method `PgOutboxRepository.Insert`, called by the `k`-th `Enqueue`. -/
def OutboxInsert (env : Env) (k : Nat) (st : State) (msg : OutboxMessage) : Option Err × State :=
  if env.fault.outboxInsert k then (some .outboxInsert, st)
  else
    let id := if msg.ID = uuidNil then env.msgRowID k else msg.ID
    let occurred := if msg.OccurredAtUtc = 0 then (env.now : Int) else msg.OccurredAtUtc
    (none, { st with
      outbox := st.outbox ++ [⟨id, msg.Type_, msg.PayloadJSON, occurred, msg.RetryCount, none⟩] })

/-! ## Application (`internal/application`) -/

/-- Method `outboxWriter.Enqueue`, the `k`-th of the handler call. Every event of this
service has a non-empty routing key, so `typeNameOf` is never consulted. -/
def Enqueue (env : Env) (k : Nat) (st : State) (ev : Event) : Option Err × State :=
  match env.marshal ev with
  | none => (some .marshal, st)
  | some payload =>
    OutboxInsert env k st ⟨env.msgID k, ev.GetRoutingKey, payload, (env.now : Int), 0, none⟩

/-- A loop `for ... { if err := s.outbox.Enqueue(ctx, ev); err != nil { return err } }`
over the events `evs`, the first of them being Enqueue number `k`. -/
def enqueueAll (env : Env) : Nat → State → List Event → Option Err × State
  | _, st, [] => (none, st)
  | k, st, ev :: rest =>
    match Enqueue env k st ev with
    | (some e, st1) => (some e, st1)
    | (none, st1) => enqueueAll env (k + 1) st1 rest

/-- The validation loop of `HandleOrderPlaced` (lines 61-74): the reason of the
first line that is rejected, `none` when every line passes. Every line is
checked against the items as loaded. -/
def firstFailure (stockMap : StockMap) : List OrderPlacedLine → Option String
  | [] => none
  | line :: rest =>
    match stockMap.get line.Sku with
    | none => some ("SKU " ++ line.Sku ++ " not found")
    | some item =>
      if !item.CanReserve line.Quantity then some ("Not enough stock for sku " ++ line.Sku)
      else firstFailure stockMap rest

/-- The loop of lines 76-80: `Reserve` through the map's pointer, line by
line. -/
def reserveLines (now : Nat) (stockMap : StockMap) (lines : List OrderPlacedLine) : StockMap :=
  lines.foldl (fun m line => m.modify line.Sku (fun it => it.Reserve now line.Quantity)) stockMap

/-- The loop of lines 85-92 from line number `i` on. -/
def buildResLines (env : Env) : Nat → List OrderPlacedLine → List ReservationLine
  | _, [] => []
  | i, line :: rest =>
    ⟨env.lineID i, env.resID, line.Sku, line.Quantity⟩ :: buildResLines env (i + 1) rest

/-- Method `ReserveStockService.HandleOrderPlaced` -/
def HandleOrderPlaced (env : Env) (st : State) (payload : OrderPlacedPayload) :
    Option Err × State :=
  if payload.OrderID = uuidNil then (some .missingOrderId, st)
  else
    -- `existing, _ := GetByOrderID(...)`: the error is dropped, and with an
    -- error the repository returns a nil reservation
    let existing : Option StockReservation :=
      match GetByOrderID env st payload.OrderID with
      | .ok r => r
      | .error _ => none
    match existing with
    | some _ => (none, st)
    | none =>
      if payload.Lines.length = 0 then
        Enqueue env 0 st
          (NewStockReservationFailedEvent env.now payload.OrderID payload.UserID
            "No lines in order")
      else
        let skus := payload.Lines.map (fun l => l.Sku)
        match GetBySkus env st skus with
        | .error e => (some e, st)
        | .ok stockMap =>
          match firstFailure stockMap payload.Lines with
          | some reason =>
            Enqueue env 0 st
              (NewStockReservationFailedEvent env.now payload.OrderID payload.UserID reason)
          | none =>
            let stockMap1 := reserveLines env.now stockMap payload.Lines
            let reservation : StockReservation :=
              { ID := env.resID
                OrderID := payload.OrderID
                UserID := payload.UserID
                Status := ReservationActive
                ReservedAtUtc := env.now
                ReleasedAtUtc := none
                Lines := buildResLines env 0 payload.Lines }
            let items := env.rangeOrder.iter stockMap1
            match UpsertMany env st items with
            | (some e, st1) => (some e, st1)
            | (none, st1) =>
              match Insert env st1 reservation with
              | (some e, st2) => (some e, st2)
              | (none, st2) =>
                let evLines := payload.Lines.map (fun l => StockReservedLine.mk l.Sku l.Quantity)
                let reservedEv :=
                  NewStockReservedEvent env.now payload.OrderID payload.UserID evLines
                match Enqueue env 0 st2 reservedEv with
                | (some e, st3) => (some e, st3)
                | (none, st3) =>
                  enqueueAll env 1 st3 (items.map (fun item =>
                    NewCatalogStockAdjustedEvent env.now item.Sku item.Available item.Reserved
                      "ORDER_RESERVED"))

/-- The loop of lines 53-60 of `HandleOrderCancelled`: `Release` through the
map's pointer for each line whose sku is in the map. -/
def releaseLines (now : Nat) (stockMap : StockMap) (lines : List ReservationLine) : StockMap :=
  lines.foldl (fun m l => m.modify l.Sku (fun it => it.Release now l.Quantity)) stockMap

/-- Method `ReleaseReservationService.HandleOrderCancelled` -/
def HandleOrderCancelled (env : Env) (st : State) (orderID : UUID) : Option Err × State :=
  match GetByOrderID env st orderID with
  | .error e => (some e, st)
  | .ok none => (none, st)
  | .ok (some res) =>
    if res.Status = ReservationReleased then (none, st)
    else
      let skus := res.Lines.map (fun l => l.Sku)
      match GetBySkus env st skus with
      | .error e => (some e, st)
      | .ok stockMap =>
        let stockMap1 := releaseLines env.now stockMap res.Lines
        let items := env.rangeOrder.iter stockMap1
        match UpsertMany env st items with
        | (some e, st1) => (some e, st1)
        | (none, st1) =>
          match Update env st1 (res.MarkReleased env.now) with
          | (some e, st2) => (some e, st2)
          | (none, st2) =>
            enqueueAll env 0 st2 (items.map (fun item =>
              NewCatalogStockAdjustedEvent env.now item.Sku item.Available item.Reserved
                "ORDER_RELEASED"))

/-- Method `ProductCreatedHandler.Handle`. An event that is not an envelope, an
envelope of another type, a payload that does not decode and an empty sku are
dropped with a `nil` result. -/
def ProductCreatedHandler.Handle (env : Env) (st : State) (ev : InboundEvent) :
    Option Err × State :=
  match ev with
  | .other => (none, st)
  | .envelope e =>
    if e.Type_ ≠ "ProductCreated" then (none, st)
    else
      match env.unmarshalProduct e.PayloadJSON with
      | none => (none, st)
      | some payload =>
        if payload.Sku = "" then (none, st)
        else
          match GetBySkus env st [payload.Sku] with
          | .error err => (some err, st)
          | .ok existing =>
            let item : StockItem :=
              match existing.get payload.Sku with
              | some current => { current with Available := payload.StockQuantity }
              | none => NewStockItem env.itemID env.now payload.Sku payload.StockQuantity
            match UpsertMany env st [item] with
            | (some err, st1) => (some err, st1)
            | (none, st1) =>
              Enqueue env 0 st1
                (NewCatalogStockAdjustedEvent env.now item.Sku item.Available item.Reserved
                  "INITIAL_LOAD")

/-! ## Outbox relay (`internal/infrastructure/db`, `internal/infrastructure/outbox`) -/

/-- The order of `order by occurred_at_utc asc`: the rows rearranged so that
occurred_at never decreases; how rows with equal occurred_at follow each other
is up to the database. -/
structure PendingOrder where
  sort : List OutboxMessage → List OutboxMessage
  perm : ∀ l, (sort l).Perm l
  sorted : ∀ l, (sort l).Pairwise (fun a b => a.OccurredAtUtc ≤ b.OccurredAtUtc)

/-- What one `DispatchOnce` pass obtains from outside: the clock (unix
seconds), whether `json.Unmarshal` accepts a payload, whether the query of the
batch fails, the row order the query yields, and whether `Publish` and `Save`
fail for the record at a given position of the batch. -/
structure DispatchEnv where
  now : Int
  decodes : String → Bool
  queryFails : Bool
  order : PendingOrder
  publishFails : Nat → Bool
  saveFails : Nat → Bool

/-- Method `PgOutboxRepository.GetPendingBatch`: the rows with processed_at
null and retry_count below `maxRetry`, oldest first, at most `batchSize` of
them. PostgreSQL rejects a negative LIMIT, which is an error of the query. -/
def GetPendingBatch (env : DispatchEnv) (st : State) (maxRetry batchSize : Int) :
    Except Err (List OutboxMessage) :=
  if env.queryFails then .error .getPendingBatch
  else if batchSize < 0 then .error .getPendingBatch
  else
    .ok ((env.order.sort (st.outbox.filter (fun m =>
      m.ProcessedAtUtc.isNone && decide (m.RetryCount < maxRetry)))).take batchSize.toNat)

/-- Method `PgOutboxRepository.Save` for the record at position `i` of the
batch: an empty id is refused before the database is asked; otherwise the rows
with the message's id get its retry_count, and its processed_at when it has
one (`coalesce`). -/
def Save (env : DispatchEnv) (i : Nat) (st : State) (msg : OutboxMessage) : Option Err × State :=
  if msg.ID = uuidNil then (some .emptyMessageID, st)
  else if env.saveFails i then (some .save, st)
  else
    (none, { st with
      outbox := st.outbox.map (fun r =>
        if r.ID = msg.ID then
          { r with
            RetryCount := msg.RetryCount
            ProcessedAtUtc :=
              match msg.ProcessedAtUtc with
              | some t => some t
              | none => r.ProcessedAtUtc }
        else r) })

/-- What a `DispatchOnce` pass returns and does: the count and error it
returns, the state it leaves, and in call order the envelopes handed to
`Publish` and the messages handed to `Save`. -/
structure DispatchResult where
  count : Nat
  err : Option Err
  state : State
  published : List IntegrationEventEnvelope
  saved : List OutboxMessage

/-- The loop of `DispatchOnce` (lines 44-78) over the records from position `i`
of the batch on. An error of `Save` is logged and otherwise ignored. -/
def dispatchLoop (env : DispatchEnv) : Nat → State → List OutboxMessage → DispatchResult
  | _, st, [] => ⟨0, none, st, [], []⟩
  | i, st, msg :: rest =>
    if env.decodes msg.PayloadJSON = false then
      let msg1 := { msg with RetryCount := msg.RetryCount + 1 }
      let r := dispatchLoop env (i + 1) (Save env i st msg1).2 rest
      { r with saved := msg1 :: r.saved }
    else
      let envelope : IntegrationEventEnvelope := ⟨msg.Type_, msg.PayloadJSON, msg.Type_⟩
      if env.publishFails i then
        let msg1 := { msg with RetryCount := msg.RetryCount + 1 }
        let r := dispatchLoop env (i + 1) (Save env i st msg1).2 rest
        { r with published := envelope :: r.published, saved := msg1 :: r.saved }
      else
        let msg1 := { msg with ProcessedAtUtc := some env.now }
        let r := dispatchLoop env (i + 1) (Save env i st msg1).2 rest
        { r with
          count := r.count + 1
          published := envelope :: r.published
          saved := msg1 :: r.saved }

/-- Method `Dispatcher.DispatchOnce` of a dispatcher built with `maxRetry` and
`batchSize`. -/
def DispatchOnce (env : DispatchEnv) (st : State) (maxRetry batchSize : Int) : DispatchResult :=
  match GetPendingBatch env st maxRetry batchSize with
  | .error e => ⟨0, some e, st, [], []⟩
  | .ok msgs =>
    if msgs.length = 0 then ⟨0, none, st, [], []⟩
    else dispatchLoop env 0 st msgs

/-! ## Vocabulary of the statements -/

/-- The outbox row a successful `Enqueue` number `k` writes for the event `ev`
marshalled to `js`. -/
def enqueuedRow (env : Env) (k : Nat) (ev : Event) (js : String) : OutboxMessage :=
  ⟨if env.msgID k = uuidNil then env.msgRowID k else env.msgID k, ev.GetRoutingKey, js,
    (env.now : Int), 0, none⟩

/-- The check of lines 63-73 on one order line, read on the stock table: the
sku has no row, or `CanReserve` is false on its row. -/
def lineFails (st : State) (l : OrderPlacedLine) : Bool :=
  match st.stock l.Sku with
  | none => true
  | some row => !(row.toItem l.Sku).CanReserve l.Quantity

/-- The reason string lines 65 and 70 build for a failing line. -/
def failReason (st : State) (l : OrderPlacedLine) : String :=
  match st.stock l.Sku with
  | none => "SKU " ++ l.Sku ++ " not found"
  | some _ => "Not enough stock for sku " ++ l.Sku

/-- No store call fails and every event marshals. -/
def Env.NonFailing (env : Env) : Prop :=
  env.fault.getByOrderID = false ∧ env.fault.getBySkus = false ∧
    env.fault.upsertMany = false ∧ env.fault.insert = false ∧ env.fault.update = false ∧
    (∀ k, env.fault.outboxInsert k = false) ∧ ∀ ev, (env.marshal ev).isSome = true

/-- The reservation of lines 94-102. -/
def newReservation (env : Env) (payload : OrderPlacedPayload) : StockReservation :=
  { ID := env.resID
    OrderID := payload.OrderID
    UserID := payload.UserID
    Status := ReservationActive
    ReservedAtUtc := env.now
    ReleasedAtUtc := none
    Lines := buildResLines env 0 payload.Lines }

/-- The items of lines 105-108 on the reserve path: the loaded map after the
`Reserve` calls, in the order `range` walks it. -/
def reservedItems (env : Env) (st : State) (payload : OrderPlacedPayload) : List StockItem :=
  env.rangeOrder.iter
    (reserveLines env.now (selectBySkus st (payload.Lines.map (fun l => l.Sku))) payload.Lines)

/-- The events of lines 117-141. -/
def reservedEvents (env : Env) (payload : OrderPlacedPayload) (items : List StockItem) :
    List Event :=
  NewStockReservedEvent env.now payload.OrderID payload.UserID
      (payload.Lines.map (fun l => StockReservedLine.mk l.Sku l.Quantity)) ::
    items.map (fun item =>
      NewCatalogStockAdjustedEvent env.now item.Sku item.Available item.Reserved "ORDER_RESERVED")

/-- Lines 104-143 of `HandleOrderPlaced` as one sequence: upsert, insert, enqueue. -/
def persistAndEmit (env : Env) (st : State) (payload : OrderPlacedPayload) : Option Err × State :=
  match UpsertMany env st (reservedItems env st payload) with
  | (some e, st1) => (some e, st1)
  | (none, st1) =>
    match Insert env st1 (newReservation env payload) with
    | (some e, st2) => (some e, st2)
    | (none, st2) => enqueueAll env 0 st2 (reservedEvents env payload (reservedItems env st payload))

/-- Total quantity the order lines ask of `sku`. -/
def qtyFor (lines : List OrderPlacedLine) (sku : String) : Int :=
  ((lines.filter (fun l => l.Sku = sku)).map (fun l => l.Quantity)).sum

/-- The `Reserve` calls for the lines naming the item, in line order: what the loop of
lines 76-80 does to one entry of the map. -/
def reserveItem (now : Nat) (lines : List OrderPlacedLine) (it : StockItem) : StockItem :=
  lines.foldl (fun it l => if it.Sku = l.Sku then it.Reserve now l.Quantity else it) it

/-- The row an upsert of item `it` leaves where `row` was. -/
def StockRow.overwrite (env : Env) (row : StockRow) (it : StockItem) : StockRow :=
  { row with
    Available := it.Available
    Reserved := it.Reserved
    UpdatedAtUtc := if it.UpdatedAtUtc = 0 then env.now else it.UpdatedAtUtc }

/-- The row `Insert` appends for the reservation `res`. -/
def insertedRow (env : Env) (res : StockReservation) : StockReservation :=
  { res with
    ID := if res.ID = uuidNil then env.resRowID else res.ID
    Lines := insertLines env (if res.ID = uuidNil then env.resRowID else res.ID) 0 res.Lines }

/-- Total quantity the reservation lines hold of `sku`. -/
def resQtyFor (lines : List ReservationLine) (sku : String) : Int :=
  ((lines.filter (fun l => l.Sku = sku)).map (fun l => l.Quantity)).sum

/-- The `Release` calls for the lines naming the item, in line order: what the loop of
lines 53-60 of `HandleOrderCancelled` does to one entry of the map. -/
def releaseItem (now : Nat) (lines : List ReservationLine) (it : StockItem) : StockItem :=
  lines.foldl (fun it l => if it.Sku = l.Sku then it.Release now l.Quantity else it) it

/-- The items of lines 62-65 of `HandleOrderCancelled`: the loaded map after
the `Release` calls, in the order `range` walks it. -/
def releasedItems (env : Env) (st : State) (res : StockReservation) : List StockItem :=
  env.rangeOrder.iter
    (releaseLines env.now (selectBySkus st (res.Lines.map (fun l => l.Sku))) res.Lines)

/-- Lines 67-90 of `HandleOrderCancelled` as one sequence: upsert, update,
enqueue. -/
def releaseAndEmit (env : Env) (st : State) (res : StockReservation) : Option Err × State :=
  match UpsertMany env st (releasedItems env st res) with
  | (some e, st1) => (some e, st1)
  | (none, st1) =>
    match Update env st1 (res.MarkReleased env.now) with
    | (some e, st2) => (some e, st2)
    | (none, st2) =>
      enqueueAll env 0 st2 ((releasedItems env st res).map (fun item =>
        NewCatalogStockAdjustedEvent env.now item.Sku item.Available item.Reserved
          "ORDER_RELEASED"))

/-- The reservation table after `Update` wrote the status and released_at of
`res` to the rows with its id. -/
def updatedRows (rs : List StockReservation) (res : StockReservation) : List StockReservation :=
  rs.map (fun r =>
    if r.ID = res.ID then { r with Status := res.Status, ReleasedAtUtc := res.ReleasedAtUtc }
    else r)

/-- One inbound call with the environment it runs in. -/
inductive Call where
  | placed (env : Env) (payload : OrderPlacedPayload)
  | cancelled (env : Env) (orderID : UUID)

/-- The environment of a call. -/
def Call.env : Call → Env
  | .placed env _ => env
  | .cancelled env _ => env

/-- The stock row of `sku` after `Release(quantity)` was applied to it once for
each reservation line naming `sku`, in line order, and the result upserted at
clock reading `now`. -/
def releasedRow (now : Nat) (lines : List ReservationLine) (sku : String) (row : StockRow) :
    StockRow :=
  ⟨row.ID,
    ((lines.filter (fun l => l.Sku = sku)).foldl (fun it l => it.Release now l.Quantity)
      (row.toItem sku)).Available,
    ((lines.filter (fun l => l.Sku = sku)).foldl (fun it l => it.Release now l.Quantity)
      (row.toItem sku)).Reserved,
    now⟩

/-- The item `ProductCreatedHandler.Handle` upserts for the payload: the loaded
item with available overwritten, or a new item. -/
def productItem (env : Env) (st : State) (payload : ProductCreatedPayload) : StockItem :=
  match st.stock payload.Sku with
  | some row => { row.toItem payload.Sku with Available := payload.StockQuantity }
  | none => NewStockItem env.itemID env.now payload.Sku payload.StockQuantity

/-- The comparison of `order by occurred_at_utc asc`. -/
def byOccurredAt (a b : OutboxMessage) : Prop := a.OccurredAtUtc ≤ b.OccurredAtUtc

instance : DecidableRel byOccurredAt := fun a b => Int.decLe a.OccurredAtUtc b.OccurredAtUtc

instance : IsTotal OutboxMessage byOccurredAt :=
  ⟨fun a b => le_total a.OccurredAtUtc b.OccurredAtUtc⟩

instance : IsTrans OutboxMessage byOccurredAt :=
  ⟨fun _ _ _ h1 h2 => le_trans h1 h2⟩

/-- A row order that keeps rows of equal occurred_at in table order. -/
def oldestFirst : PendingOrder :=
  ⟨List.insertionSort byOccurredAt, List.perm_insertionSort byOccurredAt,
    List.sorted_insertionSort byOccurredAt⟩

/-- The message the loop hands to `Save` for the record `m` at position `i`:
retry_count raised by one when the payload does not decode or `Publish` fails,
processed_at set to the clock otherwise. -/
def savedAs (env : DispatchEnv) (i : Nat) (m : OutboxMessage) : OutboxMessage :=
  if env.decodes m.PayloadJSON = false then { m with RetryCount := m.RetryCount + 1 }
  else if env.publishFails i then { m with RetryCount := m.RetryCount + 1 }
  else { m with ProcessedAtUtc := some env.now }

/-- The envelope the loop hands to `Publish` for the record `m`. -/
def envelopeOf (m : OutboxMessage) : IntegrationEventEnvelope :=
  ⟨m.Type_, m.PayloadJSON, m.Type_⟩

/-- The outbox row with id `rid`. -/
def rowOf (st : State) (rid : UUID) : Option OutboxMessage :=
  st.outbox.find? (fun m => m.ID = rid)

/-- What a successful `Save` of `msg` leaves of the row `r`. -/
def saveEffect (msg r : OutboxMessage) : OutboxMessage :=
  if r.ID = msg.ID then
    { r with
      RetryCount := msg.RetryCount
      ProcessedAtUtc :=
        match msg.ProcessedAtUtc with
        | some t => some t
        | none => r.ProcessedAtUtc }
  else r

/-- In the pass `env` on `st` the record with id `rid` is in the batch, its
payload decodes, its `Publish` fails or not as `fails` says, and every `Save`
of the pass succeeds at the store. -/
def PublishAttempt (env : DispatchEnv) (st : State) (maxRetry batchSize : Int) (rid : UUID)
    (fails : Bool) : Prop :=
  ∃ (batch : List OutboxMessage) (j : Nat) (m : OutboxMessage),
    GetPendingBatch env st maxRetry batchSize = .ok batch ∧ batch[j]? = some m ∧ m.ID = rid ∧
      env.decodes m.PayloadJSON = true ∧ env.publishFails j = fails ∧
      ∀ i, env.saveFails i = false

/-- The state `st1` is reached from `st` by `k` successive `DispatchOnce`
passes in each of which the publish of the record `rid` was attempted and
failed. -/
inductive FailedPasses (maxRetry batchSize : Int) (rid : UUID) : Nat → State → State → Prop where
  | start (st : State) : FailedPasses maxRetry batchSize rid 0 st st
  | pass (k : Nat) (st st1 : State) (env : DispatchEnv) :
      FailedPasses maxRetry batchSize rid k st st1 →
      PublishAttempt env st1 maxRetry batchSize rid true →
      FailedPasses maxRetry batchSize rid (k + 1) st
        (DispatchOnce env st1 maxRetry batchSize).state

/-- The state after further `DispatchOnce` passes of a dispatcher with retry
budget `maxRetry`, each with its environment and batch size. -/
def laterPasses (maxRetry : Int) : List (DispatchEnv × Int) → State → State
  | [], st => st
  | p :: rest, st => laterPasses maxRetry rest (DispatchOnce p.1 st maxRetry p.2).state

/-! ## Concrete data for the examples -/

/-- An environment with the faults `f`: clock 100, fresh ids counted up from
fixed offsets, maps walked in stored order. -/
def envWith (f : Faults) : Env :=
  { now := 100
    resID := 7
    lineID := fun i => 20 + i
    msgID := fun k => 40 + k
    stockRowID := fun i => 60 + i
    resRowID := 8
    lineRowID := fun i => 80 + i
    msgRowID := fun k => 90 + k
    itemID := 9
    marshal := fun ev => some ev.GetRoutingKey
    unmarshalProduct := fun _ => none
    rangeOrder := ⟨id, fun l => List.Perm.refl l⟩
    fault := f }

/-- The environment in which nothing fails. -/
def envOk : Env := envWith noFaults

/-- Stock `X` at (available 10, reserved 0), no reservation, empty outbox. -/
def stateX : State :=
  { stock := fun k => if k = "X" then some ⟨1, 10, 0, 5⟩ else none
    reservations := []
    outbox := [] }

/-- Order 1 of user 2 for 4 units of `X`. -/
def orderX4 : OrderPlacedPayload := ⟨1, 2, [⟨"X", 4⟩]⟩

/-- Order 1 of user 2 with two lines of 6 units of `X` each. -/
def orderX6X6 : OrderPlacedPayload := ⟨1, 2, [⟨"X", 6⟩, ⟨"X", 6⟩]⟩

/-- Stock `A` at (8, 0) and `B` at (3, 0), no reservation, empty outbox. -/
def stateAB : State :=
  { stock := fun k =>
      if k = "A" then some ⟨1, 8, 0, 5⟩ else if k = "B" then some ⟨2, 3, 0, 5⟩ else none
    reservations := []
    outbox := [] }

/-- Order 1 of user 2 for 5 units of `A` and 999 units of `B`. -/
def orderA5B999 : OrderPlacedPayload := ⟨1, 2, [⟨"A", 5⟩, ⟨"B", 999⟩]⟩

/-- The state `stateX` after order 1 reserved 4 units of `X`. -/
def stateXreserved : State :=
  { stock := fun k => if k = "X" then some ⟨1, 6, 4, 100⟩ else none
    reservations := [⟨7, 1, 2, ReservationActive, 100, none, [⟨20, 7, "X", 4⟩]⟩]
    outbox := [] }

/-- The state `stateXreserved` after order 1 was cancelled. -/
def stateXreleased : State :=
  { stock := fun k => if k = "X" then some ⟨1, 10, 0, 101⟩ else none
    reservations := [⟨7, 1, 2, ReservationReleased, 100, some 101, [⟨20, 7, "X", 4⟩]⟩]
    outbox := [] }

/-- Only the lookup `GetByOrderID` fails. -/
def lookupFails : Faults := { noFaults with getByOrderID := true }

/-- Only the reservation `Insert` fails. -/
def insertFails : Faults := { noFaults with insert := true }

/-- The lookup `GetByOrderID` and the reservation `Insert` fail. -/
def lookupAndInsertFail : Faults := { noFaults with getByOrderID := true, insert := true }

/-- An environment in which every envelope decodes to sku `X`, quantity 25. -/
def envProduct : Env := { envOk with unmarshalProduct := fun _ => some ⟨"X", 25⟩ }

/-- Stock `X` at (6, 4) and an ACTIVE reservation of order 1 with the lines
(X, 4) and (Y, 1); `Y` has no stock row. -/
def stateXYreserved : State :=
  { stock := fun k => if k = "X" then some ⟨1, 6, 4, 100⟩ else none
    reservations :=
      [⟨7, 1, 2, ReservationActive, 100, none, [⟨20, 7, "X", 4⟩, ⟨21, 7, "Y", 1⟩]⟩]
    outbox := [] }

/-- A pass environment: clock 200, every payload decodes, the query answers,
`Publish` and `Save` fail where `pf` and `sf` say. -/
def passWith (pf sf : Nat → Bool) : DispatchEnv :=
  { now := 200
    decodes := fun _ => true
    queryFails := false
    order := oldestFirst
    publishFails := pf
    saveFails := sf }

/-- An outbox with three pending rows (occurred at 30, 10, 20), one processed
row and one row that has used up a retry budget of 3. -/
def stateOutbox : State :=
  { stock := fun _ => none
    reservations := []
    outbox :=
      [⟨1, "StockReserved", "a", 30, 0, none⟩,
       ⟨2, "CatalogStockAdjusted", "b", 10, 1, none⟩,
       ⟨3, "StockReservationFailed", "c", 20, 2, none⟩,
       ⟨4, "StockReserved", "d", 5, 0, some 7⟩,
       ⟨5, "StockReserved", "e", 1, 3, none⟩] }

/-- The pending rows of `stateOutbox` for a retry budget of 3, oldest first. -/
def batchOutbox : List OutboxMessage :=
  [⟨2, "CatalogStockAdjusted", "b", 10, 1, none⟩,
   ⟨3, "StockReservationFailed", "c", 20, 2, none⟩,
   ⟨1, "StockReserved", "a", 30, 0, none⟩]

/-- A pass environment in which the payload "c" does not decode and nothing
else fails. -/
def passUndecodable : DispatchEnv :=
  { passWith (fun _ => false) (fun _ => false) with decodes := fun s => s != "c" }

/-- An outbox with one pending row of id 1 and retry_count 0. -/
def stateOne : State :=
  { stock := fun _ => none
    reservations := []
    outbox := [⟨1, "StockReserved", "a", 30, 0, none⟩] }

/-- A pass in which every `Publish` fails and every `Save` succeeds. -/
def passFail : DispatchEnv := passWith (fun _ => true) (fun _ => false)

/-- A pass in which nothing fails. -/
def passOk : DispatchEnv := passWith (fun _ => false) (fun _ => false)

/-- Order 1 of user 2 for 5 units of `A` and 0 units of `B`. -/
def orderA5B0 : OrderPlacedPayload := ⟨1, 2, [⟨"A", 5⟩, ⟨"B", 0⟩]⟩

/-- A pass environment in which the query of the batch fails. -/
def passQueryFails : DispatchEnv :=
  { passWith (fun _ => false) (fun _ => false) with queryFails := true }

/-- Order 1 of user 2 for 0 units of `A` and 999 units of `B`. -/
def orderA0B999 : OrderPlacedPayload := ⟨1, 2, [⟨"A", 0⟩, ⟨"B", 999⟩]⟩

/-- A text rendering of an event with every field but the time. -/
def renderEvent : Event → String
  | .StockReserved o u _ lines =>
    "StockReserved " ++ toString o ++ " " ++ toString u ++
      String.join (lines.map (fun l => " " ++ l.Sku ++ ":" ++ toString l.Quantity))
  | .StockReservationFailed o u reason _ =>
    "StockReservationFailed " ++ toString o ++ " " ++ toString u ++ " " ++ reason
  | .CatalogStockAdjusted sku a r reason _ =>
    "CatalogStockAdjusted " ++ sku ++ " " ++ toString a ++ " " ++ toString r ++ " " ++ reason

/-- The environment in which nothing fails and `json.Marshal` yields the text
rendering of the event. -/
def envText : Env := { envOk with marshal := fun ev => some (renderEvent ev) }

/-! ## Lemmas -/

theorem OutboxInsert_stock (env : Env) (k : Nat) (st : State) (msg : OutboxMessage) :
    (OutboxInsert env k st msg).2.stock = st.stock := by
  unfold OutboxInsert; split <;> rfl

theorem OutboxInsert_reservations (env : Env) (k : Nat) (st : State) (msg : OutboxMessage) :
    (OutboxInsert env k st msg).2.reservations = st.reservations := by
  unfold OutboxInsert; split <;> rfl

theorem Enqueue_stock (env : Env) (k : Nat) (st : State) (ev : Event) :
    (Enqueue env k st ev).2.stock = st.stock := by
  unfold Enqueue; split
  · rfl
  · exact OutboxInsert_stock ..

theorem Enqueue_reservations (env : Env) (k : Nat) (st : State) (ev : Event) :
    (Enqueue env k st ev).2.reservations = st.reservations := by
  unfold Enqueue; split
  · rfl
  · exact OutboxInsert_reservations ..

theorem enqueueAll_stock (env : Env) (evs : List Event) :
    ∀ (k : Nat) (st : State), (enqueueAll env k st evs).2.stock = st.stock := by
  induction evs with
  | nil => intro k st; rfl
  | cons ev rest ih =>
    intro k st
    have h := Enqueue_stock env k st ev
    unfold enqueueAll
    split
    · next e st1 heq => rw [heq] at h; exact h
    · next st1 heq => rw [heq] at h; rw [ih]; exact h

theorem enqueueAll_reservations (env : Env) (evs : List Event) :
    ∀ (k : Nat) (st : State), (enqueueAll env k st evs).2.reservations = st.reservations := by
  induction evs with
  | nil => intro k st; rfl
  | cons ev rest ih =>
    intro k st
    have h := Enqueue_reservations env k st ev
    unfold enqueueAll
    split
    · next e st1 heq => rw [heq] at h; exact h
    · next st1 heq => rw [heq] at h; rw [ih]; exact h

/-- A reservation of the order in the table makes the lookup return one. -/
theorem find_order_isSome {rs : List StockReservation} {r : StockReservation} {oid : UUID}
    (hmem : r ∈ rs) (hoid : r.OrderID = oid) :
    ∃ r1, rs.find? (fun x => decide (x.OrderID = oid)) = some r1 := by
  cases h : rs.find? (fun x => decide (x.OrderID = oid)) with
  | some r1 => exact ⟨r1, rfl⟩
  | none =>
    rw [List.find?_eq_none] at h
    have := h r hmem
    simp [hoid] at this

/-- With a reservation of the order in the store and a lookup that answers,
`HandleOrderPlaced` returns `nil` and leaves the three tables as they are. -/
theorem HandleOrderPlaced_existing (env : Env) (st : State) (payload : OrderPlacedPayload)
    (r : StockReservation) (hid : payload.OrderID ≠ uuidNil)
    (hlook : env.fault.getByOrderID = false)
    (hmem : r ∈ st.reservations) (hoid : r.OrderID = payload.OrderID) :
    HandleOrderPlaced env st payload = (none, st) := by
  obtain ⟨r1, hr1⟩ := find_order_isSome hmem hoid
  simp [HandleOrderPlaced, GetByOrderID, hid, hlook, hr1]

theorem Enqueue_ok (env : Env) (k : Nat) (st : State) (ev : Event) (js : String)
    (hmar : env.marshal ev = some js) (hout : env.fault.outboxInsert k = false) :
    Enqueue env k st ev = (none, { st with outbox := st.outbox ++ [enqueuedRow env k ev js] }) := by
  simp [Enqueue, OutboxInsert, hmar, hout, enqueuedRow]

theorem filterMap_get (st : State) (k : String) (ks : List String) :
    StockMap.get (ks.filterMap (fun k => (st.stock k).map (StockRow.toItem k))) k =
      if k ∈ ks then (st.stock k).map (StockRow.toItem k) else none := by
  induction ks with
  | nil => simp [StockMap.get]
  | cons a rest ih =>
    unfold StockMap.get at ih ⊢
    cases hrow : st.stock a with
    | none =>
      by_cases hak : k = a
      · subst hak; simp [List.filterMap_cons, hrow, ih]
      · simp [List.filterMap_cons, hrow, ih, hak]
    | some row =>
      by_cases hak : k = a
      · subst hak; simp [List.filterMap_cons, hrow, StockRow.toItem]
      · have hne : ¬ a = k := fun h => hak h.symm
        simp [List.filterMap_cons, hrow, ih, hak, StockRow.toItem, hne]

theorem selectBySkus_get (st : State) (skus : List String) (k : String) :
    (selectBySkus st skus).get k =
      if k ∈ skus then (st.stock k).map (StockRow.toItem k) else none := by
  unfold selectBySkus
  rw [filterMap_get]
  simp [List.mem_dedup]

theorem firstFailure_eq (st : State) (m : StockMap) (lines : List OrderPlacedLine)
    (hm : ∀ l ∈ lines, m.get l.Sku = (st.stock l.Sku).map (StockRow.toItem l.Sku)) :
    firstFailure m lines = (lines.find? (lineFails st)).map (failReason st) := by
  induction lines with
  | nil => rfl
  | cons l rest ih =>
    have hl := hm l (List.mem_cons_self _ _)
    have ih1 := ih (fun x hx => hm x (List.mem_cons_of_mem _ hx))
    unfold firstFailure
    cases hrow : st.stock l.Sku with
    | none =>
      simp [hl, hrow, List.find?_cons, lineFails, failReason]
    | some row =>
      rw [hrow] at hl
      simp only [Option.map_some'] at hl
      rw [hl]
      by_cases hc : (row.toItem l.Sku).CanReserve l.Quantity = true
      · simp [hc, List.find?_cons, lineFails, hrow, ih1]
      · simp [hc, List.find?_cons, lineFails, hrow, failReason]

theorem find_order_none {rs : List StockReservation} {oid : UUID}
    (h : ∀ r ∈ rs, r.OrderID ≠ oid) : rs.find? (fun x => decide (x.OrderID = oid)) = none := by
  rw [List.find?_eq_none]
  intro r hr
  simpa using h r hr

theorem firstFailure_select (st : State) (lines : List OrderPlacedLine) :
    firstFailure (selectBySkus st (lines.map (fun l => l.Sku))) lines =
      (lines.find? (lineFails st)).map (failReason st) := by
  apply firstFailure_eq
  intro x hx
  rw [selectBySkus_get]
  have : x.Sku ∈ lines.map (fun l => l.Sku) := List.mem_map_of_mem _ hx
  simp [this]

theorem HandleOrderPlaced_reserve_path (env : Env) (st : State) (payload : OrderPlacedPayload)
    (hid : payload.OrderID ≠ uuidNil)
    (hex : env.fault.getByOrderID = false →
      st.reservations.find? (fun x => decide (x.OrderID = payload.OrderID)) = none)
    (hlines : payload.Lines ≠ [])
    (hget : env.fault.getBySkus = false)
    (hval : payload.Lines.find? (lineFails st) = none) :
    HandleOrderPlaced env st payload = persistAndEmit env st payload := by
  have hskus : payload.Lines.map (fun l => l.Sku) ≠ [] := by simpa using hlines
  have hlen : payload.Lines.length ≠ 0 := by simpa using hlines
  have hff := firstFailure_select st payload.Lines
  rw [hval] at hff
  unfold HandleOrderPlaced GetByOrderID GetBySkus persistAndEmit
  rw [if_neg hid]
  cases hq : env.fault.getByOrderID
  · simp [hex hq, hlen, hskus, hget, hff, reservedItems, newReservation, reservedEvents,
      enqueueAll]
  · simp [hlen, hskus, hget, hff, reservedItems, newReservation, reservedEvents, enqueueAll]

theorem reserveLines_eq_map (now : Nat) (lines : List OrderPlacedLine) :
    ∀ m : StockMap, reserveLines now m lines = m.map (reserveItem now lines) := by
  induction lines with
  | nil => intro m; simp [reserveLines, reserveItem]; exact (List.map_id _).symm
  | cons l rest ih =>
    intro m
    have h := ih (m.modify l.Sku (fun it => it.Reserve now l.Quantity))
    unfold reserveLines at h ⊢
    rw [List.foldl_cons, h]
    simp [StockMap.modify, List.map_map, reserveItem]

theorem reserveItem_Sku (now : Nat) (lines : List OrderPlacedLine) :
    ∀ it : StockItem, (reserveItem now lines it).Sku = it.Sku := by
  induction lines with
  | nil => intro it; rfl
  | cons l rest ih =>
    intro it
    unfold reserveItem at ih ⊢
    rw [List.foldl_cons, ih]
    split <;> rfl

theorem upsertRows_of_not_mem (env : Env) (k : String) (items : List StockItem) :
    ∀ (i : Nat) (tbl : String → Option StockRow), k ∉ items.map (fun it => it.Sku) →
      upsertRows env i tbl items k = tbl k := by
  induction items with
  | nil => intro i tbl _; rfl
  | cons x rest ih =>
    intro i tbl hk
    simp only [List.map_cons, List.mem_cons, not_or] at hk
    unfold upsertRows
    rw [ih _ _ hk.2]
    simp [upsertRow, hk.1]

theorem upsertRows_of_mem (env : Env) (it : StockItem) (items : List StockItem) :
    ∀ (i : Nat) (tbl : String → Option StockRow) (row : StockRow),
      (items.map (fun it => it.Sku)).Nodup → it ∈ items → tbl it.Sku = some row →
      upsertRows env i tbl items it.Sku = some (row.overwrite env it) := by
  induction items with
  | nil => intro i tbl row _ h; simp at h
  | cons x rest ih =>
    intro i tbl row hnd hmem hrow
    rw [List.map_cons, List.nodup_cons] at hnd
    unfold upsertRows
    rcases List.mem_cons.mp hmem with hx | hr
    · subst hx
      rw [upsertRows_of_not_mem env _ rest _ _ hnd.1]
      simp [upsertRow, hrow, StockRow.overwrite]
    · have hne : it.Sku ≠ x.Sku := by
        intro e
        apply hnd.1
        rw [← e]
        exact List.mem_map_of_mem _ hr
      apply ih _ _ _ hnd.2 hr
      simp [upsertRow, hne, hrow]

theorem filterMap_keys (st : State) (ks : List String) :
    (ks.filterMap (fun k => (st.stock k).map (StockRow.toItem k))).map (fun it => it.Sku) =
      ks.filter (fun k => (st.stock k).isSome) := by
  induction ks with
  | nil => rfl
  | cons a rest ih =>
    cases hrow : st.stock a with
    | none => simp [List.filterMap_cons, List.filter_cons, hrow, ih]
    | some row => simp [List.filterMap_cons, List.filter_cons, hrow, ih, StockRow.toItem]

theorem selectBySkus_keys (st : State) (skus : List String) :
    (selectBySkus st skus).map (fun it => it.Sku) =
      skus.dedup.filter (fun k => (st.stock k).isSome) :=
  filterMap_keys st skus.dedup

theorem selectBySkus_nodup (st : State) (skus : List String) :
    ((selectBySkus st skus).map (fun it => it.Sku)).Nodup := by
  rw [selectBySkus_keys]
  exact (List.nodup_dedup skus).filter _

theorem selectBySkus_mem (st : State) (skus : List String) (k : String) (row : StockRow)
    (hk : k ∈ skus) (hrow : st.stock k = some row) : row.toItem k ∈ selectBySkus st skus := by
  unfold selectBySkus
  rw [List.mem_filterMap]
  exact ⟨k, List.mem_dedup.mpr hk, by simp [hrow]⟩

theorem selectBySkus_key_mem (st : State) (skus : List String) (k : String)
    (hk : k ∈ (selectBySkus st skus).map (fun it => it.Sku)) : k ∈ skus := by
  rw [selectBySkus_keys, List.mem_filter] at hk
  exact List.mem_dedup.mp hk.1

/-- The table after a successful upsert of the entries of a loaded map, each
changed by `f` (which keeps the sku), whatever the order `range` takes. -/
theorem upsert_loaded (env : Env) (st : State) (skus : List String) (f : StockItem → StockItem)
    (hf : ∀ it, (f it).Sku = it.Sku) (k : String) :
    upsertRows env 0 st.stock (env.rangeOrder.iter ((selectBySkus st skus).map f)) k =
      if k ∈ skus then (st.stock k).map (fun row => row.overwrite env (f (row.toItem k)))
      else st.stock k := by
  have hperm := env.rangeOrder.perm ((selectBySkus st skus).map f)
  have hkeys : ((selectBySkus st skus).map f).map (fun it => it.Sku) =
      (selectBySkus st skus).map (fun it => it.Sku) := by
    rw [List.map_map]; apply List.map_congr_left; intro a _; exact hf a
  have hnd : ((env.rangeOrder.iter ((selectBySkus st skus).map f)).map (fun it => it.Sku)).Nodup := by
    rw [(hperm.map _).nodup_iff, hkeys]
    exact selectBySkus_nodup st skus
  by_cases hk : k ∈ skus
  · rw [if_pos hk]
    cases hrow : st.stock k with
    | none =>
      rw [upsertRows_of_not_mem, hrow]; rfl
      intro hmem
      rw [(hperm.map _).mem_iff, hkeys, selectBySkus_keys, List.mem_filter] at hmem
      simp [hrow] at hmem
    | some row =>
      have hmem : f (row.toItem k) ∈ env.rangeOrder.iter ((selectBySkus st skus).map f) := by
        rw [hperm.mem_iff]
        exact List.mem_map_of_mem _ (selectBySkus_mem st skus k row hk hrow)
      have hsku : (f (row.toItem k)).Sku = k := by rw [hf]; rfl
      have := upsertRows_of_mem env _ _ 0 st.stock row hnd hmem (by rw [hsku]; exact hrow)
      rw [hsku] at this
      rw [this]; rfl
  · rw [if_neg hk]
    apply upsertRows_of_not_mem
    intro hmem
    rw [(hperm.map _).mem_iff, hkeys] at hmem
    exact hk (selectBySkus_key_mem st skus k hmem)

theorem UpsertMany_ok (env : Env) (st : State) (items : List StockItem)
    (h : env.fault.upsertMany = false) :
    UpsertMany env st items = (none, { st with stock := upsertRows env 0 st.stock items }) := by
  unfold UpsertMany
  by_cases hi : items = []
  · subst hi; rfl
  · simp [hi, h]

theorem Insert_ok (env : Env) (st : State) (res : StockReservation)
    (h : env.fault.insert = false) :
    Insert env st res =
      (none, { st with reservations := st.reservations ++ [insertedRow env res] }) := by
  simp [Insert, h, insertedRow]

theorem persistAndEmit_stock (env : Env) (st : State) (payload : OrderPlacedPayload)
    (hup : env.fault.upsertMany = false) :
    (persistAndEmit env st payload).2.stock =
      upsertRows env 0 st.stock (reservedItems env st payload) := by
  unfold persistAndEmit
  rw [UpsertMany_ok env st _ hup]
  simp only
  cases hins : env.fault.insert
  · rw [Insert_ok env _ _ hins]
    simp only [enqueueAll_stock]
  · simp [Insert, hins]

theorem persistAndEmit_reservations (env : Env) (st : State) (payload : OrderPlacedPayload)
    (hup : env.fault.upsertMany = false) (hins : env.fault.insert = false) :
    (persistAndEmit env st payload).2.reservations =
      st.reservations ++ [insertedRow env (newReservation env payload)] := by
  unfold persistAndEmit
  rw [UpsertMany_ok env st _ hup]
  simp only
  rw [Insert_ok env _ _ hins]
  simp only [enqueueAll_reservations]

theorem lineFails_none_of_pass (st : State) (lines : List OrderPlacedLine)
    (hpass : ∀ l ∈ lines, ∃ row, st.stock l.Sku = some row ∧
      0 < l.Quantity ∧ l.Quantity ≤ row.Available) :
    lines.find? (lineFails st) = none := by
  rw [List.find?_eq_none]
  intro l hl
  obtain ⟨row, hrow, hq, ha⟩ := hpass l hl
  simp [lineFails, hrow, StockItem.CanReserve, StockRow.toItem, hq, ha]

theorem pass_of_lineFails_none (st : State) (lines : List OrderPlacedLine)
    (h : lines.find? (lineFails st) = none) :
    ∀ l ∈ lines, ∃ row, st.stock l.Sku = some row ∧ 0 < l.Quantity ∧ l.Quantity ≤ row.Available := by
  rw [List.find?_eq_none] at h
  intro l hl
  have := h l hl
  unfold lineFails at this
  cases hrow : st.stock l.Sku with
  | none => simp [hrow] at this
  | some row =>
    simp [hrow, StockItem.CanReserve, StockRow.toItem] at this
    exact ⟨row, rfl, this.1, this.2⟩

theorem reservedItems_ne_nil (env : Env) (st : State) (payload : OrderPlacedPayload)
    (hlines : payload.Lines ≠ [])
    (hval : payload.Lines.find? (lineFails st) = none) :
    reservedItems env st payload ≠ [] := by
  obtain ⟨l, rest, hl⟩ := List.exists_cons_of_ne_nil hlines
  obtain ⟨row, hrow, -⟩ := pass_of_lineFails_none st _ hval l (by rw [hl]; exact List.mem_cons_self _ _)
  have hk : l.Sku ∈ payload.Lines.map (fun l => l.Sku) :=
    List.mem_map_of_mem _ (by rw [hl]; exact List.mem_cons_self _ _)
  have hmem := selectBySkus_mem st _ l.Sku row hk hrow
  intro hnil
  unfold reservedItems at hnil
  have hperm := env.rangeOrder.perm
    (reserveLines env.now (selectBySkus st (payload.Lines.map (fun l => l.Sku))) payload.Lines)
  rw [hnil] at hperm
  have := hperm.symm.eq_nil
  rw [reserveLines_eq_map, List.map_eq_nil_iff] at this
  rw [this] at hmem
  simp at hmem

/-- When the reserve path is taken, a `nil` result means neither the stock
read nor the upsert failed. -/
theorem reserve_path_success (env : Env) (st : State) (payload : OrderPlacedPayload)
    (hfind : st.reservations.find? (fun x => decide (x.OrderID = payload.OrderID)) = none)
    (hlines : payload.Lines ≠ [])
    (hval : payload.Lines.find? (lineFails st) = none)
    (hsucc : (HandleOrderPlaced env st payload).1 = none) :
    payload.OrderID ≠ uuidNil ∧ env.fault.getBySkus = false ∧ env.fault.upsertMany = false ∧
      env.fault.insert = false := by
  have hid : payload.OrderID ≠ uuidNil := by
    intro h
    simp [HandleOrderPlaced, h] at hsucc
  have hskus : payload.Lines.map (fun l => l.Sku) ≠ [] := by simpa using hlines
  have hlen : payload.Lines.length ≠ 0 := by simpa using hlines
  have hget : env.fault.getBySkus = false := by
    cases h : env.fault.getBySkus with
    | false => rfl
    | true =>
      exfalso
      unfold HandleOrderPlaced GetByOrderID GetBySkus at hsucc
      rw [if_neg hid] at hsucc
      cases hq : env.fault.getByOrderID <;> simp [hq, hfind, hlen, hskus, h] at hsucc
  rw [HandleOrderPlaced_reserve_path env st payload hid (fun _ => hfind) hlines hget hval] at hsucc
  have hitems := reservedItems_ne_nil env st payload hlines hval
  have hup : env.fault.upsertMany = false := by
    cases h : env.fault.upsertMany with
    | false => rfl
    | true => simp [persistAndEmit, UpsertMany, hitems, h] at hsucc
  refine ⟨hid, hget, hup, ?_⟩
  cases h : env.fault.insert with
  | false => rfl
  | true => simp [persistAndEmit, UpsertMany_ok env st _ hup, Insert, h] at hsucc

theorem HandleOrderCancelled_release_path (env : Env) (st : State) (orderID : UUID)
    (res : StockReservation)
    (hlook : env.fault.getByOrderID = false)
    (hfind : st.reservations.find? (fun x => decide (x.OrderID = orderID)) = some res)
    (hst : res.Status ≠ ReservationReleased)
    (hget : env.fault.getBySkus = false) :
    HandleOrderCancelled env st orderID = releaseAndEmit env st res := by
  unfold HandleOrderCancelled GetByOrderID GetBySkus releaseAndEmit
  simp only [hlook, hfind, hst, hget, if_false, Bool.false_eq_true]
  by_cases hs : res.Lines.map (fun l => l.Sku) = []
  · simp [hs, releasedItems, selectBySkus]
  · simp [hs, releasedItems]

theorem releaseLines_eq_map (now : Nat) (lines : List ReservationLine) :
    ∀ m : StockMap, releaseLines now m lines = m.map (releaseItem now lines) := by
  induction lines with
  | nil => intro m; simp [releaseLines, releaseItem]; exact (List.map_id _).symm
  | cons l rest ih =>
    intro m
    have h := ih (m.modify l.Sku (fun it => it.Release now l.Quantity))
    unfold releaseLines at h ⊢
    rw [List.foldl_cons, h]
    simp [StockMap.modify, List.map_map, releaseItem]

theorem releaseItem_Sku (now : Nat) (lines : List ReservationLine) :
    ∀ it : StockItem, (releaseItem now lines it).Sku = it.Sku := by
  induction lines with
  | nil => intro it; rfl
  | cons l rest ih =>
    intro it
    unfold releaseItem at ih ⊢
    rw [List.foldl_cons, ih]
    split <;> rfl

theorem resQtyFor_cons (l : ReservationLine) (rest : List ReservationLine) (sku : String) :
    resQtyFor (l :: rest) sku = (if l.Sku = sku then l.Quantity else 0) + resQtyFor rest sku := by
  unfold resQtyFor
  by_cases h : l.Sku = sku <;> simp [List.filter_cons, h]

theorem Update_ok (env : Env) (st : State) (res : StockReservation)
    (h : env.fault.update = false) :
    Update env st res = (none, { st with reservations := updatedRows st.reservations res }) := by
  simp [Update, h, updatedRows]

theorem releaseAndEmit_stock (env : Env) (st : State) (res : StockReservation)
    (hup : env.fault.upsertMany = false) :
    (releaseAndEmit env st res).2.stock =
      upsertRows env 0 st.stock (releasedItems env st res) := by
  unfold releaseAndEmit
  rw [UpsertMany_ok env st _ hup]
  simp only
  cases hupd : env.fault.update
  · rw [Update_ok env _ _ hupd]
    simp only [enqueueAll_stock]
  · simp [Update, hupd]

theorem releaseAndEmit_reservations (env : Env) (st : State) (res : StockReservation)
    (hup : env.fault.upsertMany = false) (hupd : env.fault.update = false) :
    (releaseAndEmit env st res).2.reservations =
      updatedRows st.reservations (res.MarkReleased env.now) := by
  unfold releaseAndEmit
  rw [UpsertMany_ok env st _ hup]
  simp only
  rw [Update_ok env _ _ hupd]
  simp only [enqueueAll_reservations]

theorem enqueueAll_ok (env : Env) (hout : ∀ k, env.fault.outboxInsert k = false)
    (hmar : ∀ ev, (env.marshal ev).isSome = true) (evs : List Event) :
    ∀ (k : Nat) (st : State), (enqueueAll env k st evs).1 = none := by
  induction evs with
  | nil => intro k st; rfl
  | cons ev rest ih =>
    intro k st
    obtain ⟨js, hjs⟩ := Option.isSome_iff_exists.mp (hmar ev)
    unfold enqueueAll
    rw [Enqueue_ok env k st ev js hjs (hout k)]
    exact ih _ _

theorem releaseAndEmit_ok (env : Env) (st : State) (res : StockReservation)
    (h : env.NonFailing) : (releaseAndEmit env st res).1 = none := by
  obtain ⟨-, -, hup, -, hupd, hout, hmar⟩ := h
  unfold releaseAndEmit
  rw [UpsertMany_ok env st _ hup]
  simp only
  rw [Update_ok env _ _ hupd]
  exact enqueueAll_ok env hout hmar _ _ _

theorem resQtyFor_insertLines (env : Env) (id : UUID) (k : String) (ls : List ReservationLine) :
    ∀ i, resQtyFor (insertLines env id i ls) k = resQtyFor ls k := by
  induction ls with
  | nil => intro i; rfl
  | cons l rest ih =>
    intro i
    unfold insertLines
    rw [resQtyFor_cons, resQtyFor_cons, ih]

theorem qtyFor_cons (l : OrderPlacedLine) (rest : List OrderPlacedLine) (sku : String) :
    qtyFor (l :: rest) sku = (if l.Sku = sku then l.Quantity else 0) + qtyFor rest sku := by
  unfold qtyFor
  by_cases h : l.Sku = sku <;> simp [List.filter_cons, h]

theorem resQtyFor_buildResLines (env : Env) (k : String) (ls : List OrderPlacedLine) :
    ∀ i, resQtyFor (buildResLines env i ls) k = qtyFor ls k := by
  induction ls with
  | nil => intro i; rfl
  | cons l rest ih =>
    intro i
    unfold buildResLines
    rw [resQtyFor_cons, qtyFor_cons, ih]

theorem insertLines_quantity (env : Env) (id : UUID) (P : Int → Prop) (ls : List ReservationLine) :
    ∀ i, (∀ l ∈ ls, P l.Quantity) → ∀ l ∈ insertLines env id i ls, P l.Quantity := by
  induction ls with
  | nil => intro i _ l hl; simp [insertLines] at hl
  | cons x rest ih =>
    intro i h l hl
    unfold insertLines at hl
    rcases List.mem_cons.mp hl with e | hr
    · rw [e]; exact h x (List.mem_cons_self _ _)
    · exact ih (i + 1) (fun y hy => h y (List.mem_cons_of_mem _ hy)) l hr

theorem buildResLines_quantity (env : Env) (P : Int → Prop) (ls : List OrderPlacedLine) :
    ∀ i, (∀ l ∈ ls, P l.Quantity) → ∀ l ∈ buildResLines env i ls, P l.Quantity := by
  induction ls with
  | nil => intro i _ l hl; simp [buildResLines] at hl
  | cons x rest ih =>
    intro i h l hl
    unfold buildResLines at hl
    rcases List.mem_cons.mp hl with e | hr
    · rw [e]; exact h x (List.mem_cons_self _ _)
    · exact ih (i + 1) (fun y hy => h y (List.mem_cons_of_mem _ hy)) l hr

/-- The row the reserve path appends: the order's id, ACTIVE, and lines holding
of every sku what the order lines ask of it, each with the line's quantity. -/
theorem insertedRow_new (env : Env) (payload : OrderPlacedPayload) :
    (insertedRow env (newReservation env payload)).OrderID = payload.OrderID ∧
    (insertedRow env (newReservation env payload)).Status = ReservationActive ∧
    (∀ k, resQtyFor (insertedRow env (newReservation env payload)).Lines k =
      qtyFor payload.Lines k) ∧
    ∀ P : Int → Prop, (∀ l ∈ payload.Lines, P l.Quantity) →
      ∀ l ∈ (insertedRow env (newReservation env payload)).Lines, P l.Quantity := by
  refine ⟨rfl, rfl, ?_, ?_⟩
  · intro k
    simp only [insertedRow, newReservation]
    rw [resQtyFor_insertLines, resQtyFor_buildResLines]
  · intro P h
    simp only [insertedRow, newReservation]
    exact insertLines_quantity env _ P _ 0 (buildResLines_quantity env P _ 0 h)

theorem find_updatedRows (rs : List StockReservation) (res : StockReservation) (oid : UUID) :
    (updatedRows rs res).find? (fun x => decide (x.OrderID = oid)) =
      (rs.find? (fun x => decide (x.OrderID = oid))).map (fun r =>
        if r.ID = res.ID then { r with Status := res.Status, ReleasedAtUtc := res.ReleasedAtUtc }
        else r) := by
  unfold updatedRows
  rw [List.find?_map]
  congr 2
  funext r
  simp only [Function.comp]
  split <;> rfl

theorem status_active_ne_released : ReservationActive ≠ ReservationReleased := by decide

theorem envOk_nonFailing : envOk.NonFailing :=
  ⟨rfl, rfl, rfl, rfl, rfl, fun _ => rfl, fun _ => rfl⟩

theorem stateX_pass : ∀ l ∈ orderX4.Lines, ∃ row, stateX.stock l.Sku = some row ∧
    0 < l.Quantity ∧ l.Quantity ≤ row.Available := by
  intro l hl
  simp only [orderX4, List.mem_singleton] at hl
  subst hl
  exact ⟨⟨1, 10, 0, 5⟩, by decide, by decide, by decide⟩

/-- The check rejects a line exactly when its sku has no stock row, or its
quantity is not positive, or it exceeds the row's available count. -/
theorem lineFails_iff (st : State) (l : OrderPlacedLine) :
    lineFails st l = true ↔
      st.stock l.Sku = none ∨
        ∃ row, st.stock l.Sku = some row ∧ (l.Quantity ≤ 0 ∨ row.Available < l.Quantity) := by
  unfold lineFails
  cases hrow : st.stock l.Sku with
  | none => simp
  | some row => simp [StockItem.CanReserve, StockRow.toItem]

theorem Enqueue_none (env : Env) (k : Nat) (st st1 : State) (ev : Event)
    (h : Enqueue env k st ev = (none, st1)) :
    ∃ js, env.marshal ev = some js ∧ env.fault.outboxInsert k = false ∧
      st1 = { st with outbox := st.outbox ++ [enqueuedRow env k ev js] } := by
  unfold Enqueue at h
  cases hm : env.marshal ev with
  | none => rw [hm] at h; simp at h
  | some js =>
    rw [hm] at h
    simp only at h
    unfold OutboxInsert at h
    cases hf : env.fault.outboxInsert k with
    | true => rw [hf] at h; simp at h
    | false =>
      rw [hf] at h
      simp only [Bool.false_eq_true, if_false, Prod.mk.injEq, true_and] at h
      exact ⟨js, rfl, rfl, by rw [← h]; simp [enqueuedRow]⟩

theorem insertLines_pairs (env : Env) (id : UUID) (ls : List ReservationLine) :
    ∀ i, (insertLines env id i ls).map (fun l => (l.Sku, l.Quantity)) =
      ls.map (fun l => (l.Sku, l.Quantity)) := by
  induction ls with
  | nil => intro i; rfl
  | cons l rest ih =>
    intro i
    unfold insertLines
    rw [List.map_cons, List.map_cons, ih]

theorem buildResLines_pairs (env : Env) (ls : List OrderPlacedLine) :
    ∀ i, (buildResLines env i ls).map (fun l => (l.Sku, l.Quantity)) =
      ls.map (fun l => (l.Sku, l.Quantity)) := by
  induction ls with
  | nil => intro i; rfl
  | cons l rest ih =>
    intro i
    unfold buildResLines
    rw [List.map_cons, List.map_cons, ih]

theorem enqueueAll_rows (env : Env) (evs : List Event) :
    ∀ (k : Nat) (st : State), (enqueueAll env k st evs).1 = none →
      ∃ rows : List OutboxMessage,
        (enqueueAll env k st evs).2.outbox = st.outbox ++ rows ∧
        rows.map (fun m => (m.Type_, some m.PayloadJSON)) =
          evs.map (fun ev => (ev.GetRoutingKey, env.marshal ev)) ∧
        ∀ m ∈ rows, m.RetryCount = 0 ∧ m.ProcessedAtUtc = none := by
  induction evs with
  | nil => intro k st _; exact ⟨[], by simp [enqueueAll], rfl, by simp⟩
  | cons ev rest ih =>
    intro k st h
    unfold enqueueAll at h ⊢
    cases hen : Enqueue env k st ev with
    | mk e st1 =>
      rw [hen] at h
      cases e with
      | some e => simp at h
      | none =>
        simp only at h ⊢
        obtain ⟨js, hjs, -, hst1⟩ := Enqueue_none env k st st1 ev hen
        obtain ⟨rows, hout, hmap, hall⟩ := ih (k + 1) st1 h
        refine ⟨enqueuedRow env k ev js :: rows, ?_, ?_, ?_⟩
        · rw [hout, hst1]; simp
        · rw [List.map_cons, List.map_cons, hmap, hjs]; rfl
        · intro m hm
          rcases List.mem_cons.mp hm with e | hr
          · rw [e]; exact ⟨rfl, rfl⟩
          · exact hall m hr

theorem filter_isSome_of_all (st : State) (ks : List String)
    (h : ∀ k ∈ ks, (st.stock k).isSome = true) :
    ks.filter (fun k => (st.stock k).isSome) = ks := by
  rw [List.filter_eq_self]
  exact h

/-- The keys of the items the reserve path persists: the distinct skus of the
lines, when each has a stock row. -/
theorem reservedItems_keys (env : Env) (st : State) (payload : OrderPlacedPayload)
    (hpass : ∀ l ∈ payload.Lines, ∃ row, st.stock l.Sku = some row ∧
      0 < l.Quantity ∧ l.Quantity ≤ row.Available) :
    ((reservedItems env st payload).map (fun it => it.Sku)).Perm
      (payload.Lines.map (fun l => l.Sku)).dedup := by
  unfold reservedItems
  refine ((env.rangeOrder.perm _).map _).trans ?_
  rw [reserveLines_eq_map, List.map_map]
  have : (fun it => it.Sku) ∘ reserveItem env.now payload.Lines = fun it => it.Sku := by
    funext it; exact reserveItem_Sku env.now payload.Lines it
  rw [this, selectBySkus_keys, filter_isSome_of_all]
  intro k hk
  obtain ⟨l, hl, rfl⟩ := List.mem_map.mp (List.mem_dedup.mp hk)
  obtain ⟨row, hrow, -⟩ := hpass l hl
  simp [hrow]

/-- Every item of a loaded map changed by `f` is, after the upsert, the row of
its sku as far as available and reserved go. -/
theorem upsert_loaded_item (env : Env) (st : State) (skus : List String)
    (f : StockItem → StockItem) (hf : ∀ it, (f it).Sku = it.Sku) (it : StockItem)
    (hit : it ∈ env.rangeOrder.iter ((selectBySkus st skus).map f)) :
    ∃ row, upsertRows env 0 st.stock (env.rangeOrder.iter ((selectBySkus st skus).map f))
        it.Sku = some row ∧ row.Available = it.Available ∧ row.Reserved = it.Reserved := by
  rw [(env.rangeOrder.perm _).mem_iff] at hit
  obtain ⟨it0, hit0, rfl⟩ := List.mem_map.mp hit
  unfold selectBySkus at hit0
  obtain ⟨k, hk, hk0⟩ := List.mem_filterMap.mp hit0
  cases hrow : st.stock k with
  | none => rw [hrow] at hk0; simp at hk0
  | some row =>
    rw [hrow] at hk0
    simp only [Option.map_some', Option.some.injEq] at hk0
    subst hk0
    rw [upsert_loaded env st skus f hf, hf]
    have hks : (row.toItem k).Sku = k := rfl
    rw [hks, if_pos (List.mem_dedup.mp hk), hrow]
    exact ⟨_, rfl, rfl, rfl⟩

theorem persistAndEmit_outbox (env : Env) (st : State) (payload : OrderPlacedPayload)
    (hup : env.fault.upsertMany = false) (hins : env.fault.insert = false)
    (hsucc : (persistAndEmit env st payload).1 = none) :
    ∃ rows : List OutboxMessage,
      (persistAndEmit env st payload).2.outbox = st.outbox ++ rows ∧
      rows.map (fun m => (m.Type_, some m.PayloadJSON)) =
        (reservedEvents env payload (reservedItems env st payload)).map
          (fun ev => (ev.GetRoutingKey, env.marshal ev)) ∧
      ∀ m ∈ rows, m.RetryCount = 0 ∧ m.ProcessedAtUtc = none := by
  unfold persistAndEmit at hsucc ⊢
  rw [UpsertMany_ok env st _ hup] at hsucc ⊢
  simp only at hsucc ⊢
  rw [Insert_ok env _ _ hins] at hsucc ⊢
  simp only at hsucc ⊢
  exact enqueueAll_rows env _ 0 _ hsucc

theorem releaseItem_eq_filter (now : Nat) (lines : List ReservationLine) :
    ∀ it : StockItem, releaseItem now lines it =
      (lines.filter (fun l => l.Sku = it.Sku)).foldl (fun it l => it.Release now l.Quantity) it := by
  induction lines with
  | nil => intro it; rfl
  | cons l rest ih =>
    intro it
    unfold releaseItem at ih ⊢
    rw [List.foldl_cons]
    by_cases h : it.Sku = l.Sku
    · have h' : l.Sku = it.Sku := h.symm
      rw [if_pos h, ih]
      simp only [List.filter_cons, h', decide_True, if_true, List.foldl_cons]
      rfl
    · have h' : ¬ l.Sku = it.Sku := fun e => h e.symm
      rw [if_neg h, ih]
      simp only [List.filter_cons, h', decide_False, Bool.false_eq_true, if_false]

theorem releaseItem_UpdatedAtUtc (now : Nat) (lines : List ReservationLine) :
    ∀ it : StockItem, (releaseItem now lines it).UpdatedAtUtc =
      if it.Sku ∈ lines.map (fun l => l.Sku) then now else it.UpdatedAtUtc := by
  induction lines with
  | nil => intro it; simp [releaseItem]
  | cons l rest ih =>
    intro it
    unfold releaseItem at ih ⊢
    rw [List.foldl_cons, ih]
    by_cases h : it.Sku = l.Sku
    · simp [h, StockItem.Release]
    · simp [h]

/-- On the release path the stock table ends, at every sku the reservation's
lines name, with the row the `Release` calls produce (none when the sku has no
row), and is unchanged elsewhere. -/
theorem released_stock (env : Env) (st : State) (res : StockReservation) (k : String) :
    upsertRows env 0 st.stock (releasedItems env st res) k =
      if k ∈ res.Lines.map (fun l => l.Sku) then
        (st.stock k).map (releasedRow env.now res.Lines k)
      else st.stock k := by
  unfold releasedItems
  rw [releaseLines_eq_map, upsert_loaded env st _ _ (releaseItem_Sku env.now res.Lines)]
  by_cases hk : k ∈ res.Lines.map (fun l => l.Sku)
  · rw [if_pos hk, if_pos hk]
    cases hrow : st.stock k with
    | none => rfl
    | some row =>
      have hk' : (row.toItem k).Sku ∈ res.Lines.map (fun l => l.Sku) := hk
      simp only [Option.map_some', StockRow.overwrite, releaseItem_UpdatedAtUtc, if_pos hk',
        releasedRow]
      rw [releaseItem_eq_filter]
      simp [StockRow.toItem]
  · rw [if_neg hk, if_neg hk]

theorem releaseAndEmit_outbox (env : Env) (st : State) (res : StockReservation)
    (h : env.NonFailing) :
    ∃ rows : List OutboxMessage,
      (releaseAndEmit env st res).2.outbox = st.outbox ++ rows ∧
      rows.map (fun m => (m.Type_, some m.PayloadJSON)) =
        ((releasedItems env st res).map (fun item =>
          NewCatalogStockAdjustedEvent env.now item.Sku item.Available item.Reserved
            "ORDER_RELEASED")).map (fun ev => (ev.GetRoutingKey, env.marshal ev)) ∧
      ∀ m ∈ rows, m.RetryCount = 0 ∧ m.ProcessedAtUtc = none := by
  have hok := releaseAndEmit_ok env st res h
  unfold releaseAndEmit at hok ⊢
  rw [UpsertMany_ok env st _ h.2.2.1] at hok ⊢
  simp only at hok ⊢
  rw [Update_ok env _ _ h.2.2.2.2.1] at hok ⊢
  simp only at hok ⊢
  exact enqueueAll_rows env _ 0 _ hok

/-- The keys of the items the release path persists: the distinct skus of the
reservation's lines that have a stock row. -/
theorem releasedItems_keys (env : Env) (st : State) (res : StockReservation) :
    ((releasedItems env st res).map (fun it => it.Sku)).Perm
      ((res.Lines.map (fun l => l.Sku)).dedup.filter (fun k => (st.stock k).isSome)) := by
  unfold releasedItems
  refine ((env.rangeOrder.perm _).map _).trans ?_
  rw [releaseLines_eq_map, List.map_map]
  have : (fun it => it.Sku) ∘ releaseItem env.now res.Lines = fun it => it.Sku := by
    funext it; exact releaseItem_Sku env.now res.Lines it
  rw [this, selectBySkus_keys]

theorem ProductCreated_path (env : Env) (st : State) (e : IntegrationEventEnvelope)
    (payload : ProductCreatedPayload)
    (hty : e.Type_ = "ProductCreated")
    (hdec : env.unmarshalProduct e.PayloadJSON = some payload)
    (hsku : payload.Sku ≠ "")
    (hget : env.fault.getBySkus = false) (hup : env.fault.upsertMany = false) :
    ProductCreatedHandler.Handle env st (.envelope e) =
      Enqueue env 0 { st with stock := upsertRow env 0 st.stock (productItem env st payload) }
        (NewCatalogStockAdjustedEvent env.now (productItem env st payload).Sku
          (productItem env st payload).Available (productItem env st payload).Reserved
          "INITIAL_LOAD") := by
  have hsel := selectBySkus_get st [payload.Sku] payload.Sku
  simp only [List.mem_singleton, if_true] at hsel
  unfold ProductCreatedHandler.Handle GetBySkus
  simp only [hty, hdec, hsku, hget, ne_eq, not_true_eq_false, if_false, List.cons_ne_nil,
    Bool.false_eq_true, hsel]
  cases hrow : st.stock payload.Sku with
  | none => simp [UpsertMany, hup, upsertRows, productItem, hrow]
  | some row => simp [UpsertMany, hup, upsertRows, productItem, hrow]

theorem productItem_Sku (env : Env) (st : State) (payload : ProductCreatedPayload) :
    (productItem env st payload).Sku = payload.Sku := by
  unfold productItem
  split <;> rfl

theorem dispatchLoop_saved (env : DispatchEnv) (msgs : List OutboxMessage) :
    ∀ (i : Nat) (st : State), (dispatchLoop env i st msgs).saved =
      (msgs.enumFrom i).map (fun p => savedAs env p.1 p.2) := by
  induction msgs with
  | nil => intro i st; rfl
  | cons m rest ih =>
    intro i st
    unfold dispatchLoop
    rw [List.enumFrom_cons, List.map_cons]
    split
    · next h =>
      simp only [ih]
      congr 1
      simp [savedAs, h]
    · next h =>
      split
      · next hp =>
        simp only [ih]
        congr 1
        simp [savedAs, h, hp]
      · next hp =>
        simp only [ih]
        congr 1
        simp [savedAs, h, hp]

theorem dispatchLoop_published (env : DispatchEnv) (msgs : List OutboxMessage) :
    ∀ (i : Nat) (st : State), (dispatchLoop env i st msgs).published =
      (msgs.filter (fun m => env.decodes m.PayloadJSON)).map envelopeOf := by
  induction msgs with
  | nil => intro i st; rfl
  | cons m rest ih =>
    intro i st
    unfold dispatchLoop
    split
    · next h => simp only [ih, List.filter_cons, h, Bool.false_eq_true, if_false]
    · next h =>
      have h' : env.decodes m.PayloadJSON = true := by simpa using h
      split <;> simp only [ih, List.filter_cons, h', if_true, List.map_cons, envelopeOf]

theorem dispatchLoop_count (env : DispatchEnv) (msgs : List OutboxMessage) :
    ∀ (i : Nat) (st : State), (dispatchLoop env i st msgs).count =
      ((msgs.enumFrom i).filter (fun p =>
        env.decodes p.2.PayloadJSON && !env.publishFails p.1)).length := by
  induction msgs with
  | nil => intro i st; rfl
  | cons m rest ih =>
    intro i st
    unfold dispatchLoop
    simp only [List.enumFrom_cons, List.filter_cons]
    split
    · next h => simp only [ih, h, Bool.false_and, Bool.false_eq_true, if_false]
    · next h =>
      have h' : env.decodes m.PayloadJSON = true := by simpa using h
      split
      · next hp => simp [ih, h', hp]
      · next hp => simp [ih, h', hp]

theorem dispatchLoop_err (env : DispatchEnv) (msgs : List OutboxMessage) :
    ∀ (i : Nat) (st : State), (dispatchLoop env i st msgs).err = none := by
  induction msgs with
  | nil => intro i st; rfl
  | cons m rest ih =>
    intro i st
    unfold dispatchLoop
    split
    · exact ih _ _
    · split <;> exact ih _ _

theorem DispatchOnce_of_batch (env : DispatchEnv) (st : State) (maxRetry batchSize : Int)
    (msgs : List OutboxMessage) (h : GetPendingBatch env st maxRetry batchSize = .ok msgs) :
    DispatchOnce env st maxRetry batchSize = dispatchLoop env 0 st msgs := by
  unfold DispatchOnce
  rw [h]
  simp only
  split
  · next hl =>
    have : msgs = [] := List.length_eq_zero.mp hl
    subst this
    rfl
  · rfl

theorem saved_get (env : DispatchEnv) (msgs : List OutboxMessage) (i j : Nat) (m : OutboxMessage)
    (hj : msgs[j]? = some m) :
    ((msgs.enumFrom i).map (fun p => savedAs env p.1 p.2))[j]? = some (savedAs env (i + j) m) := by
  rw [List.getElem?_map, List.getElem?_enumFrom, hj]
  rfl

/-- The rows of a batch have processed_at null. -/
theorem batch_pending (env : DispatchEnv) (st : State) (maxRetry batchSize : Int)
    (msgs : List OutboxMessage) (h : GetPendingBatch env st maxRetry batchSize = .ok msgs) :
    ∀ m ∈ msgs, m ∈ st.outbox ∧ m.ProcessedAtUtc = none ∧ m.RetryCount < maxRetry := by
  unfold GetPendingBatch at h
  split at h
  · cases h
  · split at h
    · cases h
    · simp only [Except.ok.injEq] at h
      subst h
      intro m hm
      have h1 := List.mem_of_mem_take hm
      rw [(env.order.perm _).mem_iff, List.mem_filter] at h1
      obtain ⟨hin, hp⟩ := h1
      simp only [Bool.and_eq_true, Option.isNone_iff_eq_none, decide_eq_true_eq] at hp
      exact ⟨hin, hp.1, hp.2⟩

theorem saveEffect_ID (msg r : OutboxMessage) : (saveEffect msg r).ID = r.ID := by
  unfold saveEffect; split <;> rfl

theorem Save_outbox (env : DispatchEnv) (i : Nat) (st : State) (msg : OutboxMessage) :
    (Save env i st msg).2.outbox = st.outbox ∨
      (msg.ID ≠ uuidNil ∧ env.saveFails i = false ∧
        (Save env i st msg).2.outbox = st.outbox.map (saveEffect msg)) := by
  unfold Save
  split
  · left; rfl
  · next hid =>
    split
    · left; rfl
    · next hs =>
      right
      exact ⟨hid, by simpa using hs, rfl⟩

theorem Save_ok (env : DispatchEnv) (i : Nat) (st : State) (msg : OutboxMessage)
    (hid : msg.ID ≠ uuidNil) (hs : env.saveFails i = false) :
    (Save env i st msg).2.outbox = st.outbox.map (saveEffect msg) := by
  unfold Save
  rw [if_neg hid, hs]
  rfl

theorem map_saveEffect_ids (msg : OutboxMessage) (l : List OutboxMessage) :
    (l.map (saveEffect msg)).map (fun m => m.ID) = l.map (fun m => m.ID) := by
  rw [List.map_map]
  apply List.map_congr_left
  intro a _
  exact saveEffect_ID msg a

theorem Save_ids (env : DispatchEnv) (i : Nat) (st : State) (msg : OutboxMessage) :
    (Save env i st msg).2.outbox.map (fun m => m.ID) = st.outbox.map (fun m => m.ID) := by
  rcases Save_outbox env i st msg with h | ⟨-, -, h⟩
  · rw [h]
  · rw [h, map_saveEffect_ids]

theorem dispatchLoop_ids (env : DispatchEnv) (msgs : List OutboxMessage) :
    ∀ (i : Nat) (st : State), (dispatchLoop env i st msgs).state.outbox.map (fun m => m.ID) =
      st.outbox.map (fun m => m.ID) := by
  induction msgs with
  | nil => intro i st; rfl
  | cons m rest ih =>
    intro i st
    unfold dispatchLoop
    split
    · simp only [ih, Save_ids]
    · split <;> simp only [ih, Save_ids]

theorem find_map_saveEffect (msg : OutboxMessage) (rid : UUID) (l : List OutboxMessage) :
    (l.map (saveEffect msg)).find? (fun m => decide (m.ID = rid)) =
      (l.find? (fun m => decide (m.ID = rid))).map (saveEffect msg) := by
  rw [List.find?_map]
  congr 2
  funext r
  simp only [Function.comp, saveEffect_ID]

/-- A `Save` of a message with another id leaves the row with id `rid` alone. -/
theorem Save_row_other (env : DispatchEnv) (i : Nat) (st : State) (msg : OutboxMessage)
    (rid : UUID) (hne : msg.ID ≠ rid) :
    rowOf (Save env i st msg).2 rid = rowOf st rid := by
  unfold rowOf
  rcases Save_outbox env i st msg with h | ⟨-, -, h⟩
  · rw [h]
  · rw [h, find_map_saveEffect]
    cases hf : st.outbox.find? (fun m => decide (m.ID = rid)) with
    | none => rfl
    | some r =>
      have hr : r.ID = rid := by simpa using List.find?_some hf
      have : r.ID ≠ msg.ID := by rw [hr]; exact fun e => hne e.symm
      simp [saveEffect, this]

/-- A successful `Save` of a message with id `rid` applies `saveEffect` to the
row with id `rid`. -/
theorem Save_row_same (env : DispatchEnv) (i : Nat) (st : State) (msg : OutboxMessage)
    (hid : msg.ID ≠ uuidNil) (hs : env.saveFails i = false) :
    rowOf (Save env i st msg).2 msg.ID = (rowOf st msg.ID).map (saveEffect msg) := by
  unfold rowOf
  rw [Save_ok env i st msg hid hs, find_map_saveEffect]

theorem savedAs_ID (env : DispatchEnv) (i : Nat) (m : OutboxMessage) :
    (savedAs env i m).ID = m.ID := by
  unfold savedAs
  split
  · rfl
  · split <;> rfl

/-- One step of the loop as a step on the state: the `Save` of `savedAs`. -/
theorem dispatchLoop_cons_state (env : DispatchEnv) (i : Nat) (st : State) (m : OutboxMessage)
    (rest : List OutboxMessage) :
    (dispatchLoop env i st (m :: rest)).state =
      (dispatchLoop env (i + 1) (Save env i st (savedAs env i m)).2 rest).state := by
  rw [dispatchLoop]
  unfold savedAs
  split
  · rfl
  · split <;> rfl

theorem loop_row_not_mem (env : DispatchEnv) (rid : UUID) (msgs : List OutboxMessage) :
    ∀ (i : Nat) (st : State), (∀ m ∈ msgs, m.ID ≠ rid) →
      rowOf (dispatchLoop env i st msgs).state rid = rowOf st rid := by
  induction msgs with
  | nil => intro i st _; rfl
  | cons m rest ih =>
    intro i st h
    rw [dispatchLoop_cons_state, ih _ _ (fun x hx => h x (List.mem_cons_of_mem _ hx))]
    apply Save_row_other
    rw [savedAs_ID]
    exact h m (List.mem_cons_self _ _)

theorem loop_row_at (env : DispatchEnv) (msgs : List OutboxMessage) :
    ∀ (i j : Nat) (st : State) (m : OutboxMessage), msgs[j]? = some m →
      (msgs.map (fun x => x.ID)).Nodup → m.ID ≠ uuidNil → env.saveFails (i + j) = false →
      rowOf (dispatchLoop env i st msgs).state m.ID =
        (rowOf st m.ID).map (saveEffect (savedAs env (i + j) m)) := by
  induction msgs with
  | nil => intro i j st m hj; simp at hj
  | cons x rest ih =>
    intro i j st m hj hnd hid hs
    rw [List.map_cons, List.nodup_cons] at hnd
    rw [dispatchLoop_cons_state]
    cases j with
    | zero =>
      simp only [List.getElem?_cons_zero, Option.some.injEq] at hj
      subst hj
      rw [loop_row_not_mem]
      · have := Save_row_same env i st (savedAs env i x) (by rw [savedAs_ID]; exact hid) hs
        rw [savedAs_ID] at this
        exact this
      · intro y hy e
        exact hnd.1 (e ▸ List.mem_map_of_mem (fun x => x.ID) hy)
    | succ j =>
      simp only [List.getElem?_cons_succ] at hj
      have hne : x.ID ≠ m.ID := by
        intro e
        exact hnd.1 (e ▸ List.mem_map_of_mem (fun x => x.ID) (List.getElem?_mem hj))
      have hs' : env.saveFails (i + 1 + j) = false := by
        have : i + 1 + j = i + (j + 1) := by omega
        rw [this]; exact hs
      rw [ih (i + 1) j _ m hj hnd.2 hid hs']
      have : i + 1 + j = i + (j + 1) := by omega
      rw [this, Save_row_other env i st _ m.ID (by rw [savedAs_ID]; exact hne)]

theorem batch_ids_nodup (env : DispatchEnv) (st : State) (maxRetry batchSize : Int)
    (msgs : List OutboxMessage) (h : GetPendingBatch env st maxRetry batchSize = .ok msgs)
    (hnd : (st.outbox.map (fun m => m.ID)).Nodup) : (msgs.map (fun m => m.ID)).Nodup := by
  unfold GetPendingBatch at h
  split at h
  · cases h
  · split at h
    · cases h
    · simp only [Except.ok.injEq] at h
      subst h
      have h1 : ((st.outbox.filter (fun m =>
          m.ProcessedAtUtc.isNone && decide (m.RetryCount < maxRetry))).map
            (fun m => m.ID)).Nodup :=
        hnd.sublist ((List.filter_sublist _).map _)
      have h2 := ((env.order.perm (st.outbox.filter (fun m =>
          m.ProcessedAtUtc.isNone && decide (m.RetryCount < maxRetry)))).map
            (fun m => m.ID)).nodup_iff.mpr h1
      exact h2.sublist ((List.take_sublist _ _).map _)

/-- With unique ids, a member of the outbox with id `rid` is the row of `rid`. -/
theorem rowOf_of_mem (st : State) (rid : UUID) (m : OutboxMessage)
    (hnd : (st.outbox.map (fun m => m.ID)).Nodup) (hm : m ∈ st.outbox) (hid : m.ID = rid) :
    rowOf st rid = some m := by
  unfold rowOf
  cases hf : st.outbox.find? (fun m => decide (m.ID = rid)) with
  | none =>
    rw [List.find?_eq_none] at hf
    have := hf m hm
    simp [hid] at this
  | some r =>
    have hr : r.ID = rid := by simpa using List.find?_some hf
    have hrm := List.mem_of_find?_eq_some hf
    have := List.inj_on_of_nodup_map hnd hrm hm (by rw [hr, hid])
    rw [this]

theorem DispatchOnce_ids (env : DispatchEnv) (st : State) (maxRetry batchSize : Int) :
    (DispatchOnce env st maxRetry batchSize).state.outbox.map (fun m => m.ID) =
      st.outbox.map (fun m => m.ID) := by
  cases h : GetPendingBatch env st maxRetry batchSize with
  | error e => simp [DispatchOnce, h]
  | ok msgs => rw [DispatchOnce_of_batch env st maxRetry batchSize msgs h, dispatchLoop_ids]

/-- One pass in which the publish of the record `rid` is attempted: the record
was pending, and its row ends with retry_count raised by one when the publish
failed, with processed_at set to the clock when it succeeded. -/
theorem pass_row_attempt (env : DispatchEnv) (st : State) (maxRetry batchSize : Int)
    (rid : UUID) (fails : Bool)
    (hnd : (st.outbox.map (fun m => m.ID)).Nodup) (hrid : rid ≠ uuidNil)
    (h : PublishAttempt env st maxRetry batchSize rid fails) :
    ∃ r, rowOf st rid = some r ∧ r.ProcessedAtUtc = none ∧ r.RetryCount < maxRetry ∧
      rowOf (DispatchOnce env st maxRetry batchSize).state rid =
        some (if fails = true then { r with RetryCount := r.RetryCount + 1 }
          else { r with ProcessedAtUtc := some env.now }) := by
  obtain ⟨batch, j, m, hb, hj, hid, hdec, hpub, hsave⟩ := h
  obtain ⟨hmem, hnull, hretry⟩ := batch_pending env st maxRetry batchSize batch hb m
    (List.getElem?_mem hj)
  have hrow := rowOf_of_mem st rid m hnd hmem hid
  have hbn := batch_ids_nodup env st maxRetry batchSize batch hb hnd
  have hloop := loop_row_at env batch 0 j st m hj hbn (by rw [hid]; exact hrid) (hsave _)
  rw [hid, hrow] at hloop
  refine ⟨m, hrow, hnull, hretry, ?_⟩
  rw [DispatchOnce_of_batch env st maxRetry batchSize batch hb, hloop]
  simp only [Nat.zero_add, Option.map_some', Option.some.injEq]
  cases fails with
  | true => simp [savedAs, hdec, hpub, saveEffect, hnull]
  | false => simp [savedAs, hdec, hpub, saveEffect]

/-- A pass leaves alone a row that is not pending. -/
theorem pass_row_excluded (env : DispatchEnv) (st : State) (maxRetry batchSize : Int)
    (rid : UUID) (r : OutboxMessage)
    (hnd : (st.outbox.map (fun m => m.ID)).Nodup) (hrow : rowOf st rid = some r)
    (hex : maxRetry ≤ r.RetryCount) :
    (∀ batch, GetPendingBatch env st maxRetry batchSize = .ok batch → ∀ m ∈ batch, m.ID ≠ rid) ∧
    rowOf (DispatchOnce env st maxRetry batchSize).state rid = some r := by
  have hbatch : ∀ batch, GetPendingBatch env st maxRetry batchSize = .ok batch →
      ∀ m ∈ batch, m.ID ≠ rid := by
    intro batch hb m hm hid
    obtain ⟨hmem, -, hretry⟩ := batch_pending env st maxRetry batchSize batch hb m hm
    have := rowOf_of_mem st rid m hnd hmem hid
    rw [hrow] at this
    cases this
    omega
  refine ⟨hbatch, ?_⟩
  cases h : GetPendingBatch env st maxRetry batchSize with
  | error e => simp [DispatchOnce, h, hrow]
  | ok msgs =>
    rw [DispatchOnce_of_batch env st maxRetry batchSize msgs h,
      loop_row_not_mem env rid msgs 0 st (hbatch msgs h), hrow]

theorem failed_passes_row (maxRetry batchSize : Int) (rid : UUID) (r : OutboxMessage)
    (hrid : rid ≠ uuidNil) (hmax : 0 ≤ maxRetry) (k : Nat) (st st1 : State)
    (hf : FailedPasses maxRetry batchSize rid k st st1)
    (hnd : (st.outbox.map (fun m => m.ID)).Nodup) (hrow : rowOf st rid = some r)
    (h0 : r.RetryCount = 0) :
    (st1.outbox.map (fun m => m.ID)).Nodup ∧
      rowOf st1 rid = some { r with RetryCount := (k : Int) } ∧ (k : Int) ≤ maxRetry := by
  induction hf with
  | start st =>
    refine ⟨hnd, ?_, ?_⟩
    · rw [hrow]; cases r; simp_all
    · simpa using hmax
  | pass k st st1 env _ hatt ih =>
    obtain ⟨hnd1, hrow1, -⟩ := ih hnd hrow
    obtain ⟨r1, hr1, -, hlt, hafter⟩ := pass_row_attempt env st1 maxRetry batchSize rid true hnd1
      hrid hatt
    rw [hrow1] at hr1
    cases hr1
    refine ⟨by rw [DispatchOnce_ids]; exact hnd1, ?_, ?_⟩
    · rw [hafter]; simp
    · simp only at hlt; push_cast; omega

theorem later_passes_row (maxRetry : Int) (rid : UUID) (r : OutboxMessage)
    (hex : maxRetry ≤ r.RetryCount) (passes : List (DispatchEnv × Int)) :
    ∀ st : State, (st.outbox.map (fun m => m.ID)).Nodup → rowOf st rid = some r →
      ((laterPasses maxRetry passes st).outbox.map (fun m => m.ID)).Nodup ∧
        rowOf (laterPasses maxRetry passes st) rid = some r := by
  induction passes with
  | nil => intro st hnd hrow; exact ⟨hnd, hrow⟩
  | cons p rest ih =>
    intro st hnd hrow
    unfold laterPasses
    apply ih
    · rw [DispatchOnce_ids]; exact hnd
    · exact (pass_row_excluded p.1 st maxRetry p.2 rid r hnd hrow hex).2

/-- With distinct ids in the outbox, after a pass the row of a batch record whose
`Save` went through is the message the loop handed to `Save` for it. -/
theorem pass_row_saved (env : DispatchEnv) (st : State) (maxRetry batchSize : Int)
    (msgs : List OutboxMessage) (h : GetPendingBatch env st maxRetry batchSize = .ok msgs)
    (hnd : (st.outbox.map (fun m => m.ID)).Nodup) (j : Nat) (m : OutboxMessage)
    (hj : msgs[j]? = some m) (hid : m.ID ≠ uuidNil) (hs : env.saveFails j = false) :
    rowOf (DispatchOnce env st maxRetry batchSize).state m.ID = some (savedAs env j m) := by
  obtain ⟨hmem, hnull, -⟩ := batch_pending env st maxRetry batchSize msgs h m
    (List.getElem?_mem hj)
  have hrow := rowOf_of_mem st m.ID m hnd hmem rfl
  have hbn := batch_ids_nodup env st maxRetry batchSize msgs h hnd
  have hloop := loop_row_at env msgs 0 j st m hj hbn hid (by rw [Nat.zero_add]; exact hs)
  rw [DispatchOnce_of_batch env st maxRetry batchSize msgs h, hloop, hrow]
  simp only [Nat.zero_add, Option.map_some', Option.some.injEq]
  unfold savedAs
  split
  · simp [saveEffect, hnull]
  · split
    · simp [saveEffect, hnull]
    · simp [saveEffect]

theorem CanReserve_nonpos (s : StockItem) (q : Int) (hq : q ≤ 0) : s.CanReserve q = false := by
  have : ¬ 0 < q := by omega
  simp [StockItem.CanReserve, this]

/-! ## The claims -/

/-- Claim C1. With a non-nil order id, a reservation of that order in the
reservation store (whatever its status) and a lookup that answers,
`HandleOrderPlaced` returns `nil` and leaves stock, reservations and outbox as
they are. Hence, after a call that reserved the order from a state without a
reservation of it, a second call returns `nil` and changes nothing, and the
store holds exactly one reservation of the order, which is ACTIVE. -/
theorem HandleOrderPlaced_idempotent (env : Env) (payload : OrderPlacedPayload)
    (hid : payload.OrderID ≠ uuidNil) (hlook : env.fault.getByOrderID = false) :
    (∀ (st : State) (r : StockReservation), r ∈ st.reservations →
      r.OrderID = payload.OrderID → HandleOrderPlaced env st payload = (none, st)) ∧
    (∀ (env1 : Env) (st : State), env1.NonFailing →
      (∀ r ∈ st.reservations, r.OrderID ≠ payload.OrderID) →
      payload.Lines ≠ [] →
      (∀ l ∈ payload.Lines, ∃ row, st.stock l.Sku = some row ∧
        0 < l.Quantity ∧ l.Quantity ≤ row.Available) →
      HandleOrderPlaced env (HandleOrderPlaced env1 st payload).2 payload =
        (none, (HandleOrderPlaced env1 st payload).2) ∧
      ((HandleOrderPlaced env1 st payload).2.reservations.filter
        (fun r => r.OrderID = payload.OrderID)).map (fun r => r.Status) =
          [ReservationActive]) := by
  refine ⟨fun st r hmem hoid => HandleOrderPlaced_existing env st payload r hid hlook hmem hoid,
    ?_⟩
  intro env1 st h1 hnone hlines hpass
  have hfind := find_order_none hnone
  have hval := lineFails_none_of_pass st payload.Lines hpass
  have hpath := HandleOrderPlaced_reserve_path env1 st payload hid (fun _ => hfind) hlines
    h1.2.1 hval
  have hres := persistAndEmit_reservations env1 st payload h1.2.2.1 h1.2.2.2.1
  obtain ⟨hroid, hrst, -, -⟩ := insertedRow_new env1 payload
  rw [hpath]
  constructor
  · apply HandleOrderPlaced_existing env _ payload (insertedRow env1 (newReservation env1 payload))
      hid hlook _ hroid
    rw [hres]
    exact List.mem_append_right _ (List.mem_singleton_self _)
  · rw [hres, List.filter_append]
    have hold : st.reservations.filter (fun r => decide (r.OrderID = payload.OrderID)) = [] := by
      rw [List.filter_eq_nil_iff]
      intro r hr
      simpa using hnone r hr
    rw [hold]
    simp [List.filter_cons, hroid, hrst]

/-- Witness for C1: order 1 for 4 units of `X`, placed twice on `stateX`. -/
theorem HandleOrderPlaced_idempotent_witness :
    orderX4.OrderID ≠ uuidNil ∧ envOk.fault.getByOrderID = false ∧
      HandleOrderPlaced envOk (HandleOrderPlaced envOk stateX orderX4).2 orderX4 =
        (none, (HandleOrderPlaced envOk stateX orderX4).2) ∧
      ((HandleOrderPlaced envOk stateX orderX4).2.reservations.filter
        (fun r => r.OrderID = orderX4.OrderID)).map (fun r => r.Status) = [ReservationActive] :=
  ⟨by decide, rfl,
    (HandleOrderPlaced_idempotent envOk orderX4 (by decide) rfl).2 envOk stateX envOk_nonFailing
      (by intro r hr; simp [stateX] at hr) (by decide) stateX_pass⟩

/-- Claim C2 as stated fails. On `stateAB` (8 units of `A`, 3 of `B`) the order
with the lines `[(A, 0), (B, 999)]` has no reservation; its line for `B` asks
more than is available, and its line for `A` names a sku that has a row and
asks no more than is available, so `(B, 999)` is the first line naming an
absent or short sku. The one event enqueued names `A`. -/
theorem HandleOrderPlaced_rejected_counterexample :
    stateAB.reservations = [] ∧
    orderA0B999.Lines = [⟨"A", 0⟩, ⟨"B", 999⟩] ∧
    stateAB.stock "A" = some ⟨1, 8, 0, 5⟩ ∧ stateAB.stock "B" = some ⟨2, 3, 0, 5⟩ ∧
    orderA0B999.Lines.find? (fun l =>
      match stateAB.stock l.Sku with
      | none => true
      | some row => decide (row.Available < l.Quantity)) = some ⟨"B", 999⟩ ∧
    (HandleOrderPlaced envText stateAB orderA0B999).1 = none ∧
    (HandleOrderPlaced envText stateAB orderA0B999).2.outbox =
      [⟨40, "StockReservationFailed", "StockReservationFailed 1 2 Not enough stock for sku A",
        100, 0, none⟩] := by
  decide

/-- Claim C2, amended. For an order with a non-nil id, no reservation and a
non-empty list of lines, one of which names a sku without a stock row, has a
quantity ≤ 0, or asks more than the available count of its sku (stock read,
marshalling and outbox insert not failing): `HandleOrderPlaced` returns `nil`,
leaves stock and reservations as they are and appends exactly one outbox row,
of type StockReservationFailed, pending and with retry_count 0. Its payload is
the failure event with the order id, the user id and the reason for `l`, the
first such line in line order (every line of `pre` before it names a sku with
a row and has a positive quantity within the available count): the not-found
text with the sku of `l` when that sku has no row, the not-enough-stock text
with the sku of `l` otherwise. -/
theorem HandleOrderPlaced_rejected (env : Env) (st : State) (payload : OrderPlacedPayload)
    (hid : payload.OrderID ≠ uuidNil)
    (hnone : ∀ r ∈ st.reservations, r.OrderID ≠ payload.OrderID)
    (hlines : payload.Lines ≠ [])
    (hfail : ∃ l ∈ payload.Lines, st.stock l.Sku = none ∨ l.Quantity ≤ 0 ∨
      ∃ row, st.stock l.Sku = some row ∧ row.Available < l.Quantity)
    (hget : env.fault.getBySkus = false)
    (hmar : ∀ ev, (env.marshal ev).isSome = true)
    (hout : env.fault.outboxInsert 0 = false) :
    ∃ (pre : List OrderPlacedLine) (l : OrderPlacedLine) (post : List OrderPlacedLine)
      (m : OutboxMessage),
      payload.Lines = pre ++ l :: post ∧
      (∀ x ∈ pre, ∃ row, st.stock x.Sku = some row ∧
        0 < x.Quantity ∧ x.Quantity ≤ row.Available) ∧
      HandleOrderPlaced env st payload = (none, { st with outbox := st.outbox ++ [m] }) ∧
      m.Type_ = "StockReservationFailed" ∧ m.RetryCount = 0 ∧ m.ProcessedAtUtc = none ∧
      ((st.stock l.Sku = none ∧
          env.marshal (Event.StockReservationFailed payload.OrderID payload.UserID
            ("SKU " ++ l.Sku ++ " not found") env.now) = some m.PayloadJSON) ∨
        (∃ row, st.stock l.Sku = some row ∧ (l.Quantity ≤ 0 ∨ row.Available < l.Quantity) ∧
          env.marshal (Event.StockReservationFailed payload.OrderID payload.UserID
            ("Not enough stock for sku " ++ l.Sku) env.now) = some m.PayloadJSON)) := by
  obtain ⟨l0, hl0, hbad⟩ := hfail
  have hl0f : lineFails st l0 = true := by
    rw [lineFails_iff]
    rcases hbad with h | h | ⟨row, hrow, hlt⟩
    · exact Or.inl h
    · cases hrow : st.stock l0.Sku with
      | none => exact Or.inl rfl
      | some row => exact Or.inr ⟨row, rfl, Or.inl h⟩
    · exact Or.inr ⟨row, hrow, Or.inr hlt⟩
  obtain ⟨l, hl⟩ : ∃ l, payload.Lines.find? (lineFails st) = some l := by
    cases h : payload.Lines.find? (lineFails st) with
    | some l => exact ⟨l, rfl⟩
    | none =>
      rw [List.find?_eq_none] at h
      exact absurd hl0f (h l0 hl0)
  obtain ⟨hlf, pre, post, hsplit, hpre⟩ := List.find?_eq_some.mp hl
  have hff : firstFailure (selectBySkus st (payload.Lines.map (fun l => l.Sku))) payload.Lines =
      some (failReason st l) := by
    rw [firstFailure_eq st, hl]; rfl
    intro x hx
    rw [selectBySkus_get]
    have : x.Sku ∈ payload.Lines.map (fun l => l.Sku) := List.mem_map_of_mem _ hx
    simp [this]
  obtain ⟨js, hjs⟩ := Option.isSome_iff_exists.mp
    (hmar (NewStockReservationFailedEvent env.now payload.OrderID payload.UserID (failReason st l)))
  refine ⟨pre, l, post, enqueuedRow env 0 (NewStockReservationFailedEvent env.now payload.OrderID
    payload.UserID (failReason st l)) js, hsplit, ?_, ?_, rfl, rfl, rfl, ?_⟩
  · intro x hx
    have hx1 : lineFails st x = false := by simpa using hpre x hx
    cases hrow : st.stock x.Sku with
    | none => simp [lineFails, hrow] at hx1
    | some row =>
      simp [lineFails, hrow, StockItem.CanReserve, StockRow.toItem] at hx1
      exact ⟨row, rfl, hx1.1, hx1.2⟩
  · have hfind := find_order_none hnone
    have hskus : payload.Lines.map (fun l => l.Sku) ≠ [] := by simpa using hlines
    have hlen : payload.Lines.length ≠ 0 := by simpa using hlines
    unfold HandleOrderPlaced GetByOrderID GetBySkus
    rw [if_neg hid]
    cases hq : env.fault.getByOrderID <;>
      simp [hfind, hlen, hskus, hget, hff, Enqueue_ok env 0 st _ js hjs hout]
  · rcases (lineFails_iff st l).mp hlf with hnone1 | ⟨row, hrow, hq⟩
    · left
      refine ⟨hnone1, ?_⟩
      have hr : failReason st l = "SKU " ++ l.Sku ++ " not found" := by simp [failReason, hnone1]
      rw [← hr]; exact hjs
    · right
      refine ⟨row, hrow, hq, ?_⟩
      have hr : failReason st l = "Not enough stock for sku " ++ l.Sku := by
        simp [failReason, hrow]
      rw [← hr]; exact hjs

/-- Witness for C2: lines `[(A, 5), (B, 999)]` with 3 units of `B` available;
the one row appended carries the reason naming `B`. -/
theorem HandleOrderPlaced_rejected_witness :
    (HandleOrderPlaced envText stateAB orderA5B999).2.outbox =
      [⟨40, "StockReservationFailed", "StockReservationFailed 1 2 Not enough stock for sku B",
        100, 0, none⟩] ∧
    ∃ (pre : List OrderPlacedLine) (l : OrderPlacedLine) (post : List OrderPlacedLine)
      (m : OutboxMessage),
      orderA5B999.Lines = pre ++ l :: post ∧
      (∀ x ∈ pre, ∃ row, stateAB.stock x.Sku = some row ∧
        0 < x.Quantity ∧ x.Quantity ≤ row.Available) ∧
      HandleOrderPlaced envText stateAB orderA5B999 =
        (none, { stateAB with outbox := stateAB.outbox ++ [m] }) ∧
      m.Type_ = "StockReservationFailed" ∧ m.RetryCount = 0 ∧ m.ProcessedAtUtc = none ∧
      ((stateAB.stock l.Sku = none ∧
          envText.marshal (Event.StockReservationFailed orderA5B999.OrderID orderA5B999.UserID
            ("SKU " ++ l.Sku ++ " not found") envText.now) = some m.PayloadJSON) ∨
        (∃ row, stateAB.stock l.Sku = some row ∧
          (l.Quantity ≤ 0 ∨ row.Available < l.Quantity) ∧
          envText.marshal (Event.StockReservationFailed orderA5B999.OrderID
            orderA5B999.UserID ("Not enough stock for sku " ++ l.Sku) envText.now) =
              some m.PayloadJSON)) :=
  ⟨by decide,
    HandleOrderPlaced_rejected envText stateAB orderA5B999 (by decide)
      (by intro r hr; simp [stateAB] at hr) (by decide)
      ⟨⟨"B", 999⟩, by decide, Or.inr (Or.inr ⟨⟨2, 3, 0, 5⟩, by decide, by decide⟩)⟩
      rfl (fun _ => rfl) rfl⟩

/-- Claim C3, failing input. On stock `X` at (10, 0) an order with two lines of
6 units of `X` passes the check line by line, returns `nil` and leaves `X` at
available -2, reserved 12. -/
theorem HandleOrderPlaced_duplicate_sku_negative :
    stateX.stock "X" = some ⟨1, 10, 0, 5⟩ ∧
    (HandleOrderPlaced envOk stateX orderX6X6).1 = none ∧
    (HandleOrderPlaced envOk stateX orderX6X6).2.stock "X" = some ⟨1, -2, 12, 100⟩ := by
  decide

/-- Claim C5 as stated fails. On `stateX` the store rejects the insert of the
reservation of order 1 (as it does when another delivery of the order inserted
first): `HandleOrderPlaced` returns the insert's error and `X` has gone from
(10, 0) to (6, 4). On `stateXreserved`, where the reservation of order 1 is in
the store, the lookup returns nothing because it fails, and the insert is
rejected: the call returns the insert's error and `X` has gone from (6, 4) to
(2, 8). -/
theorem insert_rejected_counterexample :
    (HandleOrderPlaced (envWith insertFails) stateX orderX4).1 = some Err.insert ∧
    stateX.stock "X" = some ⟨1, 10, 0, 5⟩ ∧
    (HandleOrderPlaced (envWith insertFails) stateX orderX4).2.stock "X" =
      some ⟨1, 6, 4, 100⟩ ∧
    (HandleOrderPlaced (envWith lookupAndInsertFail) stateXreserved orderX4).1 =
      some Err.insert ∧
    stateXreserved.stock "X" = some ⟨1, 6, 4, 100⟩ ∧
    (HandleOrderPlaced (envWith lookupAndInsertFail) stateXreserved orderX4).2.stock "X" =
      some ⟨1, 2, 8, 100⟩ := by
  decide

/-- Claim C5, amended. When the lookup found no reservation, the lines pass the
check, stock read and upsert succeed and the reservation store rejects the
insert, `HandleOrderPlaced` returns the insert's error, adds no reservation and
enqueues nothing. -/
theorem HandleOrderPlaced_insert_rejected (env : Env) (st : State) (payload : OrderPlacedPayload)
    (hid : payload.OrderID ≠ uuidNil)
    (hex : env.fault.getByOrderID = false → ∀ r ∈ st.reservations, r.OrderID ≠ payload.OrderID)
    (hlines : payload.Lines ≠ [])
    (hpass : ∀ l ∈ payload.Lines, ∃ row, st.stock l.Sku = some row ∧
      0 < l.Quantity ∧ l.Quantity ≤ row.Available)
    (hget : env.fault.getBySkus = false) (hup : env.fault.upsertMany = false)
    (hins : env.fault.insert = true) :
    (HandleOrderPlaced env st payload).1 = some Err.insert ∧
    (HandleOrderPlaced env st payload).2.reservations = st.reservations ∧
    (HandleOrderPlaced env st payload).2.outbox = st.outbox := by
  have hval := lineFails_none_of_pass st payload.Lines hpass
  rw [HandleOrderPlaced_reserve_path env st payload hid (fun h => find_order_none (hex h)) hlines
    hget hval]
  unfold persistAndEmit
  rw [UpsertMany_ok env st _ hup]
  simp [Insert, hins]

/-- Witness for C5: order 1 for 4 units of `X` on `stateX`, insert rejected. -/
theorem HandleOrderPlaced_insert_rejected_witness :
    (envWith insertFails).fault.insert = true ∧
    (HandleOrderPlaced (envWith insertFails) stateX orderX4).1 = some Err.insert ∧
    (HandleOrderPlaced (envWith insertFails) stateX orderX4).2.reservations =
      stateX.reservations ∧
    (HandleOrderPlaced (envWith insertFails) stateX orderX4).2.outbox = stateX.outbox :=
  ⟨rfl, HandleOrderPlaced_insert_rejected (envWith insertFails) stateX orderX4 (by decide)
    (by intro _ r hr; simp [stateX] at hr) (by decide) stateX_pass rfl rfl rfl⟩

/-- Claim C7, failing input. On `stateX` the lookup `GetByOrderID` of
`HandleOrderPlaced` fails, and the call still returns `nil`: the error is
dropped and the order is reserved (`X` goes from (10, 0) to (6, 4), one
reservation is inserted). With an empty order the same happens on the
no-lines path: the lookup fails and the call returns `nil`. -/
theorem HandleOrderPlaced_lookup_error_dropped :
    (envWith lookupFails).fault.getByOrderID = true ∧
    (HandleOrderPlaced (envWith lookupFails) stateX orderX4).1 = none ∧
    (HandleOrderPlaced (envWith lookupFails) stateX orderX4).2.stock "X" =
      some ⟨1, 6, 4, 100⟩ ∧
    ((HandleOrderPlaced (envWith lookupFails) stateX orderX4).2.reservations.map
      (fun r => r.OrderID)) = [1] ∧
    (HandleOrderPlaced (envWith lookupFails) stateX ⟨1, 2, []⟩).1 = none := by
  decide

/-- Claim C9. With a lookup that answers, when the reservation store holds no
reservation of the order, or the reservation of the order is RELEASED,
`HandleOrderCancelled` returns `nil` and leaves stock, reservations (their
released_at included) and outbox as they are. -/
theorem HandleOrderCancelled_noop (env : Env) (st : State) (orderID : UUID)
    (hlook : env.fault.getByOrderID = false)
    (h : (∀ r ∈ st.reservations, r.OrderID ≠ orderID) ∨
      ∃ r, st.reservations.find? (fun x => decide (x.OrderID = orderID)) = some r ∧
        r.Status = ReservationReleased) :
    HandleOrderCancelled env st orderID = (none, st) := by
  rcases h with hnone | ⟨r, hr, hst⟩
  · simp [HandleOrderCancelled, GetByOrderID, hlook, find_order_none hnone]
  · simp [HandleOrderCancelled, GetByOrderID, hlook, hr, hst]

/-- Witness for C9: cancelling order 1 again once it is RELEASED. -/
theorem HandleOrderCancelled_noop_witness :
    envOk.fault.getByOrderID = false ∧
    HandleOrderCancelled envOk stateXreleased 1 = (none, stateXreleased) :=
  ⟨rfl, HandleOrderCancelled_noop envOk stateXreleased 1 rfl
    (Or.inr ⟨⟨7, 1, 2, ReservationReleased, 100, some 101, [⟨20, 7, "X", 4⟩]⟩, by decide, rfl⟩)⟩

/-- Claim C11. For an order without a reservation whose non-empty lines all
pass the check, when `HandleOrderPlaced` returns `nil` it has appended exactly
1 + d outbox rows, d the number of distinct skus of the lines: first a row of
type StockReserved holding the StockReserved event with the order id, the user
id and all lines (sku, quantity) in payload order, then one row of type
CatalogStockAdjusted per item of `items`, a list holding every distinct sku of
the lines exactly once, each row holding the CatalogStockAdjusted event with
reason ORDER_RESERVED and the available and reserved counts that the stock
table now holds for its sku. Every row is pending with retry_count 0. -/
theorem HandleOrderPlaced_enqueues (env : Env) (st : State) (payload : OrderPlacedPayload)
    (hnone : ∀ r ∈ st.reservations, r.OrderID ≠ payload.OrderID)
    (hlines : payload.Lines ≠ [])
    (hpass : ∀ l ∈ payload.Lines, ∃ row, st.stock l.Sku = some row ∧
      0 < l.Quantity ∧ l.Quantity ≤ row.Available)
    (hsucc : (HandleOrderPlaced env st payload).1 = none) :
    ∃ (items : List StockItem) (rows : List OutboxMessage),
      (HandleOrderPlaced env st payload).2.outbox = st.outbox ++ rows ∧
      rows.length = 1 + (payload.Lines.map (fun l => l.Sku)).dedup.length ∧
      (items.map (fun it => it.Sku)).Perm (payload.Lines.map (fun l => l.Sku)).dedup ∧
      (∀ it ∈ items, ∃ row, (HandleOrderPlaced env st payload).2.stock it.Sku = some row ∧
        row.Available = it.Available ∧ row.Reserved = it.Reserved) ∧
      rows.map (fun m => m.Type_) =
        "StockReserved" :: items.map (fun _ => "CatalogStockAdjusted") ∧
      rows.map (fun m => some m.PayloadJSON) =
        (Event.StockReserved payload.OrderID payload.UserID env.now
            (payload.Lines.map (fun l => StockReservedLine.mk l.Sku l.Quantity)) ::
          items.map (fun it =>
            Event.CatalogStockAdjusted it.Sku it.Available it.Reserved "ORDER_RESERVED"
              env.now)).map env.marshal ∧
      ∀ m ∈ rows, m.RetryCount = 0 ∧ m.ProcessedAtUtc = none := by
  have hfind := find_order_none hnone
  have hval := lineFails_none_of_pass st payload.Lines hpass
  obtain ⟨hid, hget, hup, hins⟩ := reserve_path_success env st payload hfind hlines hval hsucc
  have hpath := HandleOrderPlaced_reserve_path env st payload hid (fun _ => hfind) hlines hget hval
  have hstock := persistAndEmit_stock env st payload hup
  rw [hpath] at hsucc ⊢
  have hkeys := reservedItems_keys env st payload hpass
  have hitems : ∀ it ∈ reservedItems env st payload,
      ∃ row, (persistAndEmit env st payload).2.stock it.Sku = some row ∧
        row.Available = it.Available ∧ row.Reserved = it.Reserved := by
    intro it hit
    rw [hstock]
    unfold reservedItems at hit ⊢
    rw [reserveLines_eq_map] at hit ⊢
    exact upsert_loaded_item env st _ _ (reserveItem_Sku env.now payload.Lines) it hit
  obtain ⟨rows, hout, hmap, hall⟩ := persistAndEmit_outbox env st payload hup hins hsucc
  refine ⟨reservedItems env st payload, rows, hout, ?_, hkeys, hitems, ?_, ?_, hall⟩
  · have hlen := congrArg List.length hmap
    simp only [List.length_map, reservedEvents, List.length_cons] at hlen
    have hk := hkeys.length_eq
    simp only [List.length_map] at hk
    omega
  · have h1 := congrArg (List.map Prod.fst) hmap
    simp only [List.map_map] at h1
    rw [show (Prod.fst ∘ fun m : OutboxMessage => (m.Type_, some m.PayloadJSON)) =
      (fun m => m.Type_) from rfl] at h1
    rw [h1, show (Prod.fst ∘ fun ev : Event => (ev.GetRoutingKey, env.marshal ev)) =
      Event.GetRoutingKey from rfl]
    simp only [reservedEvents, List.map_cons, List.map_map, NewStockReservedEvent,
      Event.GetRoutingKey, List.cons.injEq, true_and]
    rfl
  · have h2 := congrArg (List.map Prod.snd) hmap
    simp only [List.map_map] at h2
    rw [show (Prod.snd ∘ fun m : OutboxMessage => (m.Type_, some m.PayloadJSON)) =
      (fun m => some m.PayloadJSON) from rfl] at h2
    rw [h2, show (Prod.snd ∘ fun ev : Event => (ev.GetRoutingKey, env.marshal ev)) =
      env.marshal from rfl]
    rfl

/-- Witness for C11: order 1 for 4 units of `X` on `stateX`, which appends the
StockReserved row and the CatalogStockAdjusted row of `X` at (6, 4). -/
theorem HandleOrderPlaced_enqueues_witness :
    (HandleOrderPlaced envText stateX orderX4).1 = none ∧
    (HandleOrderPlaced envText stateX orderX4).2.outbox =
      [⟨40, "StockReserved", "StockReserved 1 2 X:4", 100, 0, none⟩,
        ⟨41, "CatalogStockAdjusted", "CatalogStockAdjusted X 6 4 ORDER_RESERVED", 100, 0,
          none⟩] ∧
    ∃ (items : List StockItem) (rows : List OutboxMessage),
      (HandleOrderPlaced envText stateX orderX4).2.outbox = stateX.outbox ++ rows ∧
      rows.length = 1 + (orderX4.Lines.map (fun l => l.Sku)).dedup.length ∧
      (items.map (fun it => it.Sku)).Perm (orderX4.Lines.map (fun l => l.Sku)).dedup ∧
      (∀ it ∈ items, ∃ row, (HandleOrderPlaced envText stateX orderX4).2.stock it.Sku = some row ∧
        row.Available = it.Available ∧ row.Reserved = it.Reserved) ∧
      rows.map (fun m => m.Type_) =
        "StockReserved" :: items.map (fun _ => "CatalogStockAdjusted") ∧
      rows.map (fun m => some m.PayloadJSON) =
        (Event.StockReserved orderX4.OrderID orderX4.UserID envText.now
            (orderX4.Lines.map (fun l => StockReservedLine.mk l.Sku l.Quantity)) ::
          items.map (fun it =>
            Event.CatalogStockAdjusted it.Sku it.Available it.Reserved "ORDER_RESERVED"
              envText.now)).map envText.marshal ∧
      ∀ m ∈ rows, m.RetryCount = 0 ∧ m.ProcessedAtUtc = none :=
  ⟨by decide, by decide, HandleOrderPlaced_enqueues envText stateX orderX4
    (by intro r hr; simp [stateX] at hr) (by decide) stateX_pass (by decide)⟩

/-- Claim C12. For an order without a reservation whose non-empty lines all
pass the check, when `HandleOrderPlaced` returns `nil` the reservation table
has grown by exactly one row: it has the payload's order id and user id, status
ACTIVE, no released_at, and lines whose (sku, quantity) pairs are those of the
payload's lines, in the same order and of the same number. -/
theorem HandleOrderPlaced_inserts (env : Env) (st : State) (payload : OrderPlacedPayload)
    (hnone : ∀ r ∈ st.reservations, r.OrderID ≠ payload.OrderID)
    (hlines : payload.Lines ≠ [])
    (hpass : ∀ l ∈ payload.Lines, ∃ row, st.stock l.Sku = some row ∧
      0 < l.Quantity ∧ l.Quantity ≤ row.Available)
    (hsucc : (HandleOrderPlaced env st payload).1 = none) :
    ∃ row : StockReservation,
      (HandleOrderPlaced env st payload).2.reservations = st.reservations ++ [row] ∧
      row.OrderID = payload.OrderID ∧ row.UserID = payload.UserID ∧
      row.Status = ReservationActive ∧ row.ReleasedAtUtc = none ∧
      row.Lines.map (fun l => (l.Sku, l.Quantity)) =
        payload.Lines.map (fun l => (l.Sku, l.Quantity)) ∧
      row.Lines.length = payload.Lines.length := by
  have hfind := find_order_none hnone
  have hval := lineFails_none_of_pass st payload.Lines hpass
  obtain ⟨hid, hget, hup, hins⟩ := reserve_path_success env st payload hfind hlines hval hsucc
  rw [HandleOrderPlaced_reserve_path env st payload hid (fun _ => hfind) hlines hget hval,
    persistAndEmit_reservations env st payload hup hins]
  have hpairs : (insertedRow env (newReservation env payload)).Lines.map
      (fun l => (l.Sku, l.Quantity)) = payload.Lines.map (fun l => (l.Sku, l.Quantity)) := by
    simp only [insertedRow, newReservation]
    rw [insertLines_pairs, buildResLines_pairs]
  refine ⟨insertedRow env (newReservation env payload), rfl, rfl, rfl, rfl, rfl, hpairs, ?_⟩
  have := congrArg List.length hpairs
  simpa using this

/-- Witness for C12: order 1 for 4 units of `X` on `stateX`. -/
theorem HandleOrderPlaced_inserts_witness :
    (HandleOrderPlaced envOk stateX orderX4).1 = none ∧
    ∃ row : StockReservation,
      (HandleOrderPlaced envOk stateX orderX4).2.reservations = stateX.reservations ++ [row] ∧
      row.OrderID = orderX4.OrderID ∧ row.UserID = orderX4.UserID ∧
      row.Status = ReservationActive ∧ row.ReleasedAtUtc = none ∧
      row.Lines.map (fun l => (l.Sku, l.Quantity)) =
        orderX4.Lines.map (fun l => (l.Sku, l.Quantity)) ∧
      row.Lines.length = orderX4.Lines.length :=
  ⟨by decide, HandleOrderPlaced_inserts envOk stateX orderX4
    (by intro r hr; simp [stateX] at hr) (by decide) stateX_pass (by decide)⟩

/-- Claim C13. For a reservation of the order that is ACTIVE and non-failing
stores, `HandleOrderCancelled` returns `nil`; the row of every sku named by the
reservation's lines ends as `releasedRow` gives it: `Release(quantity)` applied
once per line naming the sku, in line order, to the row as loaded; a named sku
without a row still has none afterwards; the row of a sku that no line names is
unchanged. -/
theorem HandleOrderCancelled_releases (env : Env) (st : State) (orderID : UUID)
    (res : StockReservation) (h : env.NonFailing)
    (hfind : st.reservations.find? (fun x => decide (x.OrderID = orderID)) = some res)
    (hact : res.Status = ReservationActive) (k : String) :
    (HandleOrderCancelled env st orderID).1 = none ∧
    (k ∈ res.Lines.map (fun l => l.Sku) →
      (HandleOrderCancelled env st orderID).2.stock k =
        (st.stock k).map (releasedRow env.now res.Lines k)) ∧
    (k ∈ res.Lines.map (fun l => l.Sku) → st.stock k = none →
      (HandleOrderCancelled env st orderID).2.stock k = none) ∧
    (k ∉ res.Lines.map (fun l => l.Sku) →
      (HandleOrderCancelled env st orderID).2.stock k = st.stock k) := by
  have hst : res.Status ≠ ReservationReleased := by
    rw [hact]; exact status_active_ne_released
  rw [HandleOrderCancelled_release_path env st orderID res h.1 hfind hst h.2.1,
    releaseAndEmit_stock env st res h.2.2.1, released_stock]
  refine ⟨releaseAndEmit_ok env st res h, ?_, ?_, ?_⟩
  · intro hk; rw [if_pos hk]
  · intro hk hnone; rw [if_pos hk, hnone]; rfl
  · intro hk; rw [if_neg hk]

/-- Witness for C13: cancelling order 1 on `stateXYreserved` gives `X` back its
4 units and leaves `Y` without a row. -/
theorem HandleOrderCancelled_releases_witness :
    (HandleOrderCancelled envOk stateXYreserved 1).1 = none ∧
    (HandleOrderCancelled envOk stateXYreserved 1).2.stock "X" = some ⟨1, 10, 0, 100⟩ ∧
    (HandleOrderCancelled envOk stateXYreserved 1).2.stock "Y" = none :=
  have hX := HandleOrderCancelled_releases envOk stateXYreserved 1
    ⟨7, 1, 2, ReservationActive, 100, none, [⟨20, 7, "X", 4⟩, ⟨21, 7, "Y", 1⟩]⟩
    envOk_nonFailing (by decide) rfl "X"
  have hY := HandleOrderCancelled_releases envOk stateXYreserved 1
    ⟨7, 1, 2, ReservationActive, 100, none, [⟨20, 7, "X", 4⟩, ⟨21, 7, "Y", 1⟩]⟩
    envOk_nonFailing (by decide) rfl "Y"
  ⟨hX.1, (hX.2.1 (by decide)).trans (by decide), hY.2.2.1 (by decide) (by decide)⟩

/-- Claim C14. For a reservation of the order that is ACTIVE and non-failing
stores, after `HandleOrderCancelled` the reservation of the order is the same
row with status RELEASED and released_at set to the clock reading (id, order
id, user id, reserved_at and lines as before), and the outbox has grown by the
rows of one CatalogStockAdjusted event with reason ORDER_RELEASED per item of
`items`, a list holding exactly once every distinct sku of the reservation's
lines that has a stock row and no other sku, each event carrying the available
and reserved counts that the stock table now holds for its sku. -/
theorem HandleOrderCancelled_marks (env : Env) (st : State) (orderID : UUID)
    (res : StockReservation) (h : env.NonFailing)
    (hfind : st.reservations.find? (fun x => decide (x.OrderID = orderID)) = some res)
    (hact : res.Status = ReservationActive) :
    (HandleOrderCancelled env st orderID).2.reservations.find?
        (fun x => decide (x.OrderID = orderID)) =
      some { res with Status := ReservationReleased, ReleasedAtUtc := some env.now } ∧
    ∃ (items : List StockItem) (rows : List OutboxMessage),
      (HandleOrderCancelled env st orderID).2.outbox = st.outbox ++ rows ∧
      rows.length = items.length ∧
      (items.map (fun it => it.Sku)).Perm
        ((res.Lines.map (fun l => l.Sku)).dedup.filter (fun k => (st.stock k).isSome)) ∧
      (∀ it ∈ items, ∃ row, (HandleOrderCancelled env st orderID).2.stock it.Sku = some row ∧
        row.Available = it.Available ∧ row.Reserved = it.Reserved) ∧
      rows.map (fun m => (m.Type_, some m.PayloadJSON)) =
        (items.map (fun it =>
          Event.CatalogStockAdjusted it.Sku it.Available it.Reserved "ORDER_RELEASED"
            env.now)).map (fun ev => (ev.GetRoutingKey, env.marshal ev)) ∧
      ∀ m ∈ rows, m.RetryCount = 0 ∧ m.ProcessedAtUtc = none := by
  have hst : res.Status ≠ ReservationReleased := by
    rw [hact]; exact status_active_ne_released
  have hpath := HandleOrderCancelled_release_path env st orderID res h.1 hfind hst h.2.1
  have hstock := releaseAndEmit_stock env st res h.2.2.1
  rw [hpath]
  constructor
  · rw [releaseAndEmit_reservations env st res h.2.2.1 h.2.2.2.2.1, find_updatedRows, hfind]
    simp [StockReservation.MarkReleased, hst]
  · obtain ⟨rows, hout, hmap, hall⟩ := releaseAndEmit_outbox env st res h
    refine ⟨releasedItems env st res, rows, hout, ?_, releasedItems_keys env st res, ?_, ?_, hall⟩
    · have hlen := congrArg List.length hmap
      simpa using hlen
    · intro it hit
      rw [hstock]
      unfold releasedItems at hit ⊢
      rw [releaseLines_eq_map] at hit ⊢
      exact upsert_loaded_item env st _ _ (releaseItem_Sku env.now res.Lines) it hit
    · rw [hmap]
      simp [NewCatalogStockAdjustedEvent]

/-- Witness for C14: cancelling order 1 on `stateXYreserved`. -/
theorem HandleOrderCancelled_marks_witness :
    (HandleOrderCancelled envOk stateXYreserved 1).2.reservations.find?
        (fun x => decide (x.OrderID = 1)) =
      some ⟨7, 1, 2, ReservationReleased, 100, some 100,
        [⟨20, 7, "X", 4⟩, ⟨21, 7, "Y", 1⟩]⟩ ∧
    (HandleOrderCancelled envOk stateXYreserved 1).2.outbox.map (fun m => m.Type_) =
      ["CatalogStockAdjusted"] :=
  ⟨(HandleOrderCancelled_marks envOk stateXYreserved 1
    ⟨7, 1, 2, ReservationActive, 100, none, [⟨20, 7, "X", 4⟩, ⟨21, 7, "Y", 1⟩]⟩
    envOk_nonFailing (by decide) rfl).1, by decide⟩

/-- Claim C15. For a ProductCreated envelope whose payload decodes to a
non-empty sku and the announced quantity n (stock read, upsert, marshalling and
outbox insert not failing), the handler returns `nil`; a sku without a row gets
a row with available n and reserved 0; a sku with a row keeps that row's id and
reserved count and gets available n; the row of every other sku and the
reservations are unchanged; and exactly one outbox row is appended, the
CatalogStockAdjusted event with reason INITIAL_LOAD carrying the available and
reserved counts the row of the sku now holds. -/
theorem ProductCreated_effect (env : Env) (st : State) (e : IntegrationEventEnvelope)
    (payload : ProductCreatedPayload)
    (hty : e.Type_ = "ProductCreated")
    (hdec : env.unmarshalProduct e.PayloadJSON = some payload)
    (hsku : payload.Sku ≠ "")
    (hget : env.fault.getBySkus = false) (hup : env.fault.upsertMany = false)
    (hmar : ∀ ev, (env.marshal ev).isSome = true)
    (hout : env.fault.outboxInsert 0 = false) :
    (ProductCreatedHandler.Handle env st (.envelope e)).1 = none ∧
    (st.stock payload.Sku = none →
      ∃ row, (ProductCreatedHandler.Handle env st (.envelope e)).2.stock payload.Sku = some row ∧
        row.Available = payload.StockQuantity ∧ row.Reserved = 0) ∧
    (∀ row0, st.stock payload.Sku = some row0 →
      ∃ row, (ProductCreatedHandler.Handle env st (.envelope e)).2.stock payload.Sku = some row ∧
        row.Available = payload.StockQuantity ∧ row.Reserved = row0.Reserved ∧
        row.ID = row0.ID) ∧
    (∀ k, k ≠ payload.Sku →
      (ProductCreatedHandler.Handle env st (.envelope e)).2.stock k = st.stock k) ∧
    (ProductCreatedHandler.Handle env st (.envelope e)).2.reservations = st.reservations ∧
    ∃ (row : StockRow) (m : OutboxMessage),
      (ProductCreatedHandler.Handle env st (.envelope e)).2.stock payload.Sku = some row ∧
      (ProductCreatedHandler.Handle env st (.envelope e)).2.outbox = st.outbox ++ [m] ∧
      m.Type_ = "CatalogStockAdjusted" ∧
      env.marshal (Event.CatalogStockAdjusted payload.Sku row.Available row.Reserved
        "INITIAL_LOAD" env.now) = some m.PayloadJSON := by
  obtain ⟨js, hjs⟩ := Option.isSome_iff_exists.mp
    (hmar (NewCatalogStockAdjustedEvent env.now (productItem env st payload).Sku
      (productItem env st payload).Available (productItem env st payload).Reserved
      "INITIAL_LOAD"))
  rw [ProductCreated_path env st e payload hty hdec hsku hget hup, Enqueue_ok env 0 _ _ js hjs hout]
  simp only
  have hitem := productItem_Sku env st payload
  refine ⟨trivial, ?_, ?_, ?_, trivial, ?_⟩
  · intro hnone
    simp [upsertRow, hitem, hnone, productItem, NewStockItem]
  · intro row0 hrow0
    simp [upsertRow, hitem, hrow0, productItem, StockRow.toItem]
  · intro k hk
    simp [upsertRow, hitem, hk]
  · cases hrow : st.stock payload.Sku with
    | none =>
      refine ⟨_, _, by simp [upsertRow, hitem, hrow]; rfl, rfl, rfl, ?_⟩
      rw [hitem] at hjs
      exact hjs
    | some row0 =>
      refine ⟨_, _, by simp [upsertRow, hitem, hrow]; rfl, rfl, rfl, ?_⟩
      rw [hitem] at hjs
      exact hjs

/-- Witness for C15: ProductCreated for `X` with quantity 25 on `stateXreserved`,
where `X` is at (6, 4), and on a state without stock rows. -/
theorem ProductCreated_effect_witness :
    (ProductCreatedHandler.Handle envProduct stateXreserved
      (.envelope ⟨"ProductCreated", "", ""⟩)).1 = none ∧
    (∃ row, (ProductCreatedHandler.Handle envProduct stateXreserved
        (.envelope ⟨"ProductCreated", "", ""⟩)).2.stock "X" = some row ∧
      row.Available = 25 ∧ row.Reserved = 4 ∧ row.ID = 1) ∧
    ∃ row, (ProductCreatedHandler.Handle envProduct ⟨fun _ => none, [], []⟩
        (.envelope ⟨"ProductCreated", "", ""⟩)).2.stock "X" = some row ∧
      row.Available = 25 ∧ row.Reserved = 0 :=
  have h := ProductCreated_effect envProduct stateXreserved ⟨"ProductCreated", "", ""⟩ ⟨"X", 25⟩
    rfl rfl (by decide) rfl rfl (fun _ => rfl) rfl
  have h0 := ProductCreated_effect envProduct ⟨fun _ => none, [], []⟩
    ⟨"ProductCreated", "", ""⟩ ⟨"X", 25⟩ rfl rfl (by decide) rfl rfl (fun _ => rfl) rfl
  ⟨h.1, h.2.2.1 ⟨1, 6, 4, 100⟩ (by decide), h0.2.1 rfl⟩

/-- Claim C16. Let `r` be an outbox row with a unique non-nil id, retry_count 0
and processed_at null, and let `maxRetry ≥ 1`, `batchSize ≥ 1`. If in `k`
successive `DispatchOnce` passes the publish of `r` is attempted and fails
(payload decoding, saves succeeding) and in the next pass it succeeds, the row
ends with processed_at set to the clock of that pass and retry_count `k`, and
`k < maxRetry`. If the publish fails in `maxRetry` successive passes, the row
has retry_count `maxRetry`, and after any further passes no
`GetPendingBatch(maxRetry, b)` returns a record with its id. -/
theorem retry_budget (maxRetry batchSize : Int) (st : State) (r : OutboxMessage)
    (hmax : 1 ≤ maxRetry) (_hb : 1 ≤ batchSize)
    (hnd : (st.outbox.map (fun m => m.ID)).Nodup) (hmem : r ∈ st.outbox)
    (hrid : r.ID ≠ uuidNil) (h0 : r.RetryCount = 0) (_hpend : r.ProcessedAtUtc = none) :
    (∀ (k : Nat) (st1 : State) (env : DispatchEnv),
      FailedPasses maxRetry batchSize r.ID k st st1 →
      PublishAttempt env st1 maxRetry batchSize r.ID false →
      (k : Int) < maxRetry ∧
      rowOf (DispatchOnce env st1 maxRetry batchSize).state r.ID =
        some { r with RetryCount := (k : Int), ProcessedAtUtc := some env.now }) ∧
    (∀ (n : Nat) (st1 : State),
      FailedPasses maxRetry batchSize r.ID n st st1 → (n : Int) = maxRetry →
      rowOf st1 r.ID = some { r with RetryCount := maxRetry } ∧
      ∀ (passes : List (DispatchEnv × Int)) (env : DispatchEnv) (b : Int)
        (batch : List OutboxMessage),
        GetPendingBatch env (laterPasses maxRetry passes st1) maxRetry b = .ok batch →
        ∀ m ∈ batch, m.ID ≠ r.ID) := by
  have hrow := rowOf_of_mem st r.ID r hnd hmem rfl
  constructor
  · intro k st1 env hf hatt
    obtain ⟨hnd1, hrow1, -⟩ := failed_passes_row maxRetry batchSize r.ID r hrid (by omega) k st st1
      hf hnd hrow h0
    obtain ⟨r1, hr1, -, hlt, hafter⟩ := pass_row_attempt env st1 maxRetry batchSize r.ID false
      hnd1 hrid hatt
    rw [hrow1] at hr1
    cases hr1
    exact ⟨hlt, by rw [hafter]; simp⟩
  · intro n st1 hf hn
    obtain ⟨hnd1, hrow1, -⟩ := failed_passes_row maxRetry batchSize r.ID r hrid (by omega) n st st1
      hf hnd hrow h0
    rw [hn] at hrow1
    refine ⟨hrow1, ?_⟩
    intro passes env b batch hb
    obtain ⟨hnd2, hrow2⟩ := later_passes_row maxRetry r.ID { r with RetryCount := maxRetry }
      (le_refl _) passes st1 hnd1 hrow1
    exact (pass_row_excluded env _ maxRetry b r.ID _ hnd2 hrow2 (le_refl _)).1 batch hb

/-- Witness for C16 with `maxRetry` 2 and `batchSize` 10 on `stateOne`: one
failing pass and a succeeding one leave the row processed with retry_count 1;
two failing passes leave it with retry_count 2 and out of every later batch. -/
theorem retry_budget_witness :
    rowOf (DispatchOnce passOk (DispatchOnce passFail stateOne 2 10).state 2 10).state 1 =
      some ⟨1, "StockReserved", "a", 30, 1, some 200⟩ ∧
    rowOf (DispatchOnce passFail (DispatchOnce passFail stateOne 2 10).state 2 10).state 1 =
      some ⟨1, "StockReserved", "a", 30, 2, none⟩ ∧
    GetPendingBatch passOk
      (laterPasses 2 [(passOk, 10)]
        (DispatchOnce passFail (DispatchOnce passFail stateOne 2 10).state 2 10).state) 2 10 =
      .ok [] :=
  have h := retry_budget 2 10 stateOne ⟨1, "StockReserved", "a", 30, 0, none⟩ (by decide)
    (by decide) (by decide) (by decide) (by decide) rfl rfl
  have f1 : FailedPasses 2 10 1 1 stateOne (DispatchOnce passFail stateOne 2 10).state :=
    .pass 0 stateOne stateOne passFail (.start stateOne)
      ⟨[⟨1, "StockReserved", "a", 30, 0, none⟩], 0, _, rfl, rfl, rfl, rfl, rfl, fun _ => rfl⟩
  have f2 : FailedPasses 2 10 1 2 stateOne
      (DispatchOnce passFail (DispatchOnce passFail stateOne 2 10).state 2 10).state :=
    .pass 1 stateOne _ passFail f1
      ⟨[⟨1, "StockReserved", "a", 30, 1, none⟩], 0, _, rfl, rfl, rfl, rfl, rfl, fun _ => rfl⟩
  ⟨(h.1 1 _ passOk f1
      ⟨[⟨1, "StockReserved", "a", 30, 1, none⟩], 0, _, rfl, rfl, rfl, rfl, rfl,
        fun _ => rfl⟩).2.trans (by decide),
    (h.2 2 _ f2 rfl).1.trans (by decide), rfl⟩

/-- Claim C17. When `GetPendingBatch` answers with the batch `msgs`,
`DispatchOnce` returns no error and the number of batch records whose payload
decoded and whose `Publish` succeeded, a number between 0 and the batch length;
`Save` is called once per record, in batch order: for a record whose publish
succeeded with processed_at set to the clock and retry_count as read, for a
record whose publish failed with retry_count raised by exactly 1 and
processed_at still null; and `Publish` is called once per decodable record,
so a failed publish is not repeated in the pass. With distinct ids in the
outbox, the row of a record with a non-nil id whose `Save` went through holds
just that after the pass: processed_at the clock and retry_count unchanged
when its publish succeeded, retry_count one higher and processed_at null when
its publish failed. -/
theorem DispatchOnce_counts (env : DispatchEnv) (st : State) (maxRetry batchSize : Int)
    (msgs : List OutboxMessage) (h : GetPendingBatch env st maxRetry batchSize = .ok msgs) :
    (DispatchOnce env st maxRetry batchSize).err = none ∧
    (DispatchOnce env st maxRetry batchSize).count =
      ((msgs.enumFrom 0).filter (fun p =>
        env.decodes p.2.PayloadJSON && !env.publishFails p.1)).length ∧
    (DispatchOnce env st maxRetry batchSize).count ≤ msgs.length ∧
    (DispatchOnce env st maxRetry batchSize).saved.length = msgs.length ∧
    (∀ (j : Nat) (m : OutboxMessage), msgs[j]? = some m → env.decodes m.PayloadJSON = true → env.publishFails j = false →
      (DispatchOnce env st maxRetry batchSize).saved[j]? =
        some { m with ProcessedAtUtc := some env.now }) ∧
    (∀ (j : Nat) (m : OutboxMessage), msgs[j]? = some m → env.decodes m.PayloadJSON = true → env.publishFails j = true →
      (DispatchOnce env st maxRetry batchSize).saved[j]? =
        some { m with RetryCount := m.RetryCount + 1, ProcessedAtUtc := none }) ∧
    (DispatchOnce env st maxRetry batchSize).published.length =
      (msgs.filter (fun m => env.decodes m.PayloadJSON)).length ∧
    ((st.outbox.map (fun m => m.ID)).Nodup →
      ∀ (j : Nat) (m : OutboxMessage), msgs[j]? = some m → m.ID ≠ uuidNil →
        env.saveFails j = false → env.decodes m.PayloadJSON = true →
        (env.publishFails j = false →
          rowOf (DispatchOnce env st maxRetry batchSize).state m.ID =
            some { m with ProcessedAtUtc := some env.now }) ∧
        (env.publishFails j = true →
          rowOf (DispatchOnce env st maxRetry batchSize).state m.ID =
            some { m with RetryCount := m.RetryCount + 1, ProcessedAtUtc := none })) := by
  have hrows : (st.outbox.map (fun m => m.ID)).Nodup →
      ∀ (j : Nat) (m : OutboxMessage), msgs[j]? = some m → m.ID ≠ uuidNil →
        env.saveFails j = false → env.decodes m.PayloadJSON = true →
        (env.publishFails j = false →
          rowOf (DispatchOnce env st maxRetry batchSize).state m.ID =
            some { m with ProcessedAtUtc := some env.now }) ∧
        (env.publishFails j = true →
          rowOf (DispatchOnce env st maxRetry batchSize).state m.ID =
            some { m with RetryCount := m.RetryCount + 1, ProcessedAtUtc := none }) := by
    intro hnd j m hj hid hs hd
    have hrow := pass_row_saved env st maxRetry batchSize msgs h hnd j m hj hid hs
    have hnull := (batch_pending env st maxRetry batchSize msgs h m (List.getElem?_mem hj)).2.1
    constructor
    · intro hp
      rw [hrow]
      simp [savedAs, hd, hp]
    · intro hp
      rw [hrow]
      simp [savedAs, hd, hp, hnull]
  refine ⟨?_, ?_, ?_, ?_, ?_, ?_, ?_, hrows⟩
  all_goals rw [DispatchOnce_of_batch env st maxRetry batchSize msgs h]
  · exact dispatchLoop_err env msgs 0 st
  · exact dispatchLoop_count env msgs 0 st
  · rw [dispatchLoop_count]
    refine (List.length_filter_le _ _).trans ?_
    simp
  · rw [dispatchLoop_saved]; simp
  · intro j m hj hd hp
    rw [dispatchLoop_saved, saved_get env msgs 0 j m hj]
    simp [savedAs, hd, hp]
  · intro j m hj hd hp
    have hnull := (batch_pending env st maxRetry batchSize msgs h m (List.getElem?_mem hj)).2.1
    rw [dispatchLoop_saved, saved_get env msgs 0 j m hj]
    simp [savedAs, hd, hp, hnull]
  · rw [dispatchLoop_published]; simp

/-- Witness for C17: on `stateOutbox` with the publish of the second record of
the batch failing, `DispatchOnce` returns 2; the first record is saved as
processed, the second with retry_count 3, and the outbox rows 2 and 1 end
processed at the clock 200 while row 3 ends pending with retry_count 3. -/
theorem DispatchOnce_counts_witness :
    GetPendingBatch (passWith (fun i => i == 1) (fun _ => false)) stateOutbox 3 10 =
      .ok batchOutbox ∧
    (DispatchOnce (passWith (fun i => i == 1) (fun _ => false)) stateOutbox 3 10).count = 2 ∧
    (DispatchOnce (passWith (fun i => i == 1) (fun _ => false)) stateOutbox 3 10).saved[0]? =
      some ⟨2, "CatalogStockAdjusted", "b", 10, 1, some 200⟩ ∧
    (DispatchOnce (passWith (fun i => i == 1) (fun _ => false)) stateOutbox 3 10).saved[1]? =
      some ⟨3, "StockReservationFailed", "c", 20, 3, none⟩ ∧
    rowOf (DispatchOnce (passWith (fun i => i == 1) (fun _ => false)) stateOutbox 3 10).state 2 =
      some ⟨2, "CatalogStockAdjusted", "b", 10, 1, some 200⟩ ∧
    rowOf (DispatchOnce (passWith (fun i => i == 1) (fun _ => false)) stateOutbox 3 10).state 3 =
      some ⟨3, "StockReservationFailed", "c", 20, 3, none⟩ ∧
    (DispatchOnce (passWith (fun i => i == 1) (fun _ => false)) stateOutbox 3 10).state.outbox =
      [⟨1, "StockReserved", "a", 30, 0, some 200⟩,
       ⟨2, "CatalogStockAdjusted", "b", 10, 1, some 200⟩,
       ⟨3, "StockReservationFailed", "c", 20, 3, none⟩,
       ⟨4, "StockReserved", "d", 5, 0, some 7⟩,
       ⟨5, "StockReserved", "e", 1, 3, none⟩] :=
  have h := DispatchOnce_counts (passWith (fun i => i == 1) (fun _ => false)) stateOutbox 3 10
    batchOutbox rfl
  ⟨rfl, h.2.1.trans (by decide), h.2.2.2.2.1 0 _ rfl rfl rfl, h.2.2.2.2.2.1 1 _ rfl rfl rfl,
    (h.2.2.2.2.2.2.2 (by decide) 0 ⟨2, "CatalogStockAdjusted", "b", 10, 1, none⟩ rfl (by decide)
      rfl rfl).1 rfl,
    (h.2.2.2.2.2.2.2 (by decide) 1 ⟨3, "StockReservationFailed", "c", 20, 2, none⟩ rfl
      (by decide) rfl rfl).2 rfl,
    by decide⟩

/-- Claim C18. When `GetPendingBatch(maxRetry, batchSize)` answers, every row it
returns is a row of the outbox with processed_at null and retry_count below
`maxRetry`; it returns at most `batchSize` rows; occurred_at never decreases
along the result; and no row of the outbox with processed_at set is in it. -/
theorem GetPendingBatch_sound (env : DispatchEnv) (st : State) (maxRetry batchSize : Int)
    (msgs : List OutboxMessage)
    (h : GetPendingBatch env st maxRetry batchSize = .ok msgs) :
    (∀ m ∈ msgs, m ∈ st.outbox ∧ m.ProcessedAtUtc = none ∧ m.RetryCount < maxRetry) ∧
    (msgs.length : Int) ≤ batchSize ∧
    msgs.Pairwise (fun a b => a.OccurredAtUtc ≤ b.OccurredAtUtc) ∧
    ∀ m ∈ st.outbox, m.ProcessedAtUtc ≠ none → m ∉ msgs := by
  unfold GetPendingBatch at h
  split at h
  · cases h
  · split at h
    · cases h
    · next hq hb =>
      simp only [Except.ok.injEq] at h
      subst h
      have hmem : ∀ m ∈ (env.order.sort (st.outbox.filter (fun m =>
          m.ProcessedAtUtc.isNone && decide (m.RetryCount < maxRetry)))).take batchSize.toNat,
          m ∈ st.outbox ∧ m.ProcessedAtUtc = none ∧ m.RetryCount < maxRetry := by
        intro m hm
        have h1 := List.mem_of_mem_take hm
        rw [(env.order.perm _).mem_iff, List.mem_filter] at h1
        obtain ⟨hin, hp⟩ := h1
        simp only [Bool.and_eq_true, Option.isNone_iff_eq_none, decide_eq_true_eq] at hp
        exact ⟨hin, hp.1, hp.2⟩
      refine ⟨hmem, ?_, ?_, ?_⟩
      · have hlen := List.length_take_le batchSize.toNat (env.order.sort (st.outbox.filter (fun m =>
          m.ProcessedAtUtc.isNone && decide (m.RetryCount < maxRetry))))
        have : (batchSize.toNat : Int) = batchSize := Int.toNat_of_nonneg (by omega)
        omega
      · exact (env.order.sorted _).sublist (List.take_sublist _ _)
      · intro m _ hset hm
        exact hset (hmem m hm).2.1

/-- Witness for C18: with `maxRetry` 3 and `batchSize` 10 the three pending
rows of `stateOutbox` come back oldest first, without the processed row and
the exhausted row; with `batchSize` 2 only the two oldest come back. -/
theorem GetPendingBatch_sound_witness :
    GetPendingBatch (passWith (fun _ => false) (fun _ => false)) stateOutbox 3 10 =
      .ok [⟨2, "CatalogStockAdjusted", "b", 10, 1, none⟩,
        ⟨3, "StockReservationFailed", "c", 20, 2, none⟩,
        ⟨1, "StockReserved", "a", 30, 0, none⟩] ∧
    GetPendingBatch (passWith (fun _ => false) (fun _ => false)) stateOutbox 3 2 =
      .ok [⟨2, "CatalogStockAdjusted", "b", 10, 1, none⟩,
        ⟨3, "StockReservationFailed", "c", 20, 2, none⟩] ∧
    (([⟨2, "CatalogStockAdjusted", "b", 10, 1, none⟩,
        ⟨3, "StockReservationFailed", "c", 20, 2, none⟩] : List OutboxMessage).length : Int) ≤ 2 :=
  ⟨rfl, rfl,
    (GetPendingBatch_sound (passWith (fun _ => false) (fun _ => false)) stateOutbox 3 2 _
      rfl).2.1⟩

/-- Claim C19. For an order with a non-nil id, no reservation and no lines
(marshalling and outbox insert not failing), `HandleOrderPlaced` returns `nil`,
leaves stock and reservations as they are and appends exactly one outbox row:
the StockReservationFailed event with the order id, the user id and the reason
"No lines in order". The result is the same whatever the stock table holds and
whether or not a stock read would fail: the stock store is not consulted. -/
theorem HandleOrderPlaced_no_lines (env : Env) (st : State) (payload : OrderPlacedPayload)
    (js : String)
    (hid : payload.OrderID ≠ uuidNil)
    (hnone : ∀ r ∈ st.reservations, r.OrderID ≠ payload.OrderID)
    (hlines : payload.Lines = [])
    (hmar : env.marshal (Event.StockReservationFailed payload.OrderID payload.UserID
      "No lines in order" env.now) = some js)
    (hout : env.fault.outboxInsert 0 = false) :
    HandleOrderPlaced env st payload =
      (none, { st with
        outbox := st.outbox ++
          [enqueuedRow env 0 (Event.StockReservationFailed payload.OrderID payload.UserID
            "No lines in order" env.now) js] }) ∧
    (enqueuedRow env 0 (Event.StockReservationFailed payload.OrderID payload.UserID
      "No lines in order" env.now) js).Type_ = "StockReservationFailed" := by
  refine ⟨?_, rfl⟩
  have hfind := find_order_none hnone
  have hen := Enqueue_ok env 0 st (NewStockReservationFailedEvent env.now payload.OrderID
    payload.UserID "No lines in order") js hmar hout
  unfold HandleOrderPlaced GetByOrderID
  rw [if_neg hid]
  cases hq : env.fault.getByOrderID <;> simp [hfind, hlines, hen] <;> rfl

/-- Witness for C19: order 1 of user 2 without lines on `stateX`. -/
theorem HandleOrderPlaced_no_lines_witness :
    HandleOrderPlaced envOk stateX ⟨1, 2, []⟩ =
      (none, { stateX with
        outbox := stateX.outbox ++
          [enqueuedRow envOk 0 (Event.StockReservationFailed 1 2 "No lines in order" envOk.now)
            "StockReservationFailed"] }) ∧
    (enqueuedRow envOk 0 (Event.StockReservationFailed 1 2 "No lines in order" envOk.now)
      "StockReservationFailed").Type_ = "StockReservationFailed" :=
  HandleOrderPlaced_no_lines envOk stateX ⟨1, 2, []⟩ "StockReservationFailed" (by decide)
    (by intro r hr; simp [stateX] at hr) rfl rfl rfl

/-- Claim C20. When `GetPendingBatch` answers with the batch `msgs`, whatever
decodes, publishes or saves in the pass: the envelopes handed to `Publish` are,
in batch order, one per record whose payload decodes, with the record's type
as type and as routing key and the record's payload as payload; and a record
whose payload does not decode gets no envelope and is handed to `Save` with
retry_count raised by exactly 1 and processed_at still null. With distinct ids
in the outbox, the row of such a record with a non-nil id whose `Save` went
through holds just that after the pass, retry_count one higher and
processed_at null, whatever happened to the other records; and once that
count has reached `maxRetry` no `GetPendingBatch(maxRetry, b)` on the
resulting state returns the record. -/
theorem DispatchOnce_per_record (env : DispatchEnv) (st : State) (maxRetry batchSize : Int)
    (msgs : List OutboxMessage) (h : GetPendingBatch env st maxRetry batchSize = .ok msgs) :
    (DispatchOnce env st maxRetry batchSize).published =
      (msgs.filter (fun m => env.decodes m.PayloadJSON)).map
        (fun m => IntegrationEventEnvelope.mk m.Type_ m.PayloadJSON m.Type_) ∧
    (∀ (j : Nat) (m : OutboxMessage), msgs[j]? = some m → env.decodes m.PayloadJSON = false →
      (DispatchOnce env st maxRetry batchSize).saved[j]? =
        some { m with RetryCount := m.RetryCount + 1, ProcessedAtUtc := none }) ∧
    ((st.outbox.map (fun m => m.ID)).Nodup →
      ∀ (j : Nat) (m : OutboxMessage), msgs[j]? = some m → m.ID ≠ uuidNil →
        env.saveFails j = false → env.decodes m.PayloadJSON = false →
        rowOf (DispatchOnce env st maxRetry batchSize).state m.ID =
          some { m with RetryCount := m.RetryCount + 1, ProcessedAtUtc := none } ∧
        (maxRetry ≤ m.RetryCount + 1 →
          ∀ (env2 : DispatchEnv) (b : Int) (batch : List OutboxMessage),
            GetPendingBatch env2 (DispatchOnce env st maxRetry batchSize).state maxRetry b =
              .ok batch →
            ∀ x ∈ batch, x.ID ≠ m.ID)) := by
  refine ⟨?_, ?_, ?_⟩
  · rw [DispatchOnce_of_batch env st maxRetry batchSize msgs h, dispatchLoop_published]
    rfl
  · intro j m hj hd
    have hnull := (batch_pending env st maxRetry batchSize msgs h m (List.getElem?_mem hj)).2.1
    rw [DispatchOnce_of_batch env st maxRetry batchSize msgs h, dispatchLoop_saved,
      saved_get env msgs 0 j m hj]
    simp [savedAs, hd, hnull]
  · intro hnd j m hj hid hs hd
    have hnull := (batch_pending env st maxRetry batchSize msgs h m (List.getElem?_mem hj)).2.1
    have hrow : rowOf (DispatchOnce env st maxRetry batchSize).state m.ID =
        some { m with RetryCount := m.RetryCount + 1, ProcessedAtUtc := none } := by
      rw [pass_row_saved env st maxRetry batchSize msgs h hnd j m hj hid hs]
      simp [savedAs, hd, hnull]
    refine ⟨hrow, ?_⟩
    intro hmax env2 b batch hb
    have hnd1 : ((DispatchOnce env st maxRetry batchSize).state.outbox.map
        (fun m => m.ID)).Nodup := by
      rw [DispatchOnce_ids]; exact hnd
    exact (pass_row_excluded env2 _ maxRetry b m.ID _ hnd1 hrow hmax).1 batch hb

/-- Witness for C20: on `stateOutbox` with the payload "c" not decoding, the
records "b" and "a" are published in batch order and "c" is saved with
retry_count 3; its row ends pending with retry_count 3, the budget, and the
next batch does not hold it. -/
theorem DispatchOnce_per_record_witness :
    GetPendingBatch passUndecodable stateOutbox 3 10 = .ok batchOutbox ∧
    (DispatchOnce passUndecodable stateOutbox 3 10).published =
      [⟨"CatalogStockAdjusted", "b", "CatalogStockAdjusted"⟩,
        ⟨"StockReserved", "a", "StockReserved"⟩] ∧
    (DispatchOnce passUndecodable stateOutbox 3 10).saved[1]? =
      some ⟨3, "StockReservationFailed", "c", 20, 3, none⟩ ∧
    rowOf (DispatchOnce passUndecodable stateOutbox 3 10).state 3 =
      some ⟨3, "StockReservationFailed", "c", 20, 3, none⟩ ∧
    (DispatchOnce passUndecodable stateOutbox 3 10).state.outbox =
      [⟨1, "StockReserved", "a", 30, 0, some 200⟩,
       ⟨2, "CatalogStockAdjusted", "b", 10, 1, some 200⟩,
       ⟨3, "StockReservationFailed", "c", 20, 3, none⟩,
       ⟨4, "StockReserved", "d", 5, 0, some 7⟩,
       ⟨5, "StockReserved", "e", 1, 3, none⟩] ∧
    GetPendingBatch passOk (DispatchOnce passUndecodable stateOutbox 3 10).state 3 10 = .ok [] :=
  have h := DispatchOnce_per_record passUndecodable stateOutbox 3 10 batchOutbox rfl
  ⟨rfl, h.1.trans (by decide), h.2.1 1 _ rfl (by decide),
    (h.2.2 (by decide) 1 ⟨3, "StockReservationFailed", "c", 20, 2, none⟩ rfl (by decide) rfl
      (by decide)).1,
    by decide, rfl⟩

/-- Claim C21. `CanReserve(q)` is false for every q ≤ 0 whatever the available
count. So for an order with a non-nil id and no reservation whose lines all
name skus with a stock row, one line having quantity ≤ 0 (stock read,
marshalling and outbox insert not failing): `HandleOrderPlaced` returns `nil`,
leaves stock and reservations as they are and appends exactly one outbox row,
of type StockReservationFailed, whose payload is the failure event with the
not-enough-stock reason for `l`, the first line in line order that the check
rejects. -/
theorem HandleOrderPlaced_rejects_nonpositive (env : Env) (st : State)
    (payload : OrderPlacedPayload)
    (hid : payload.OrderID ≠ uuidNil)
    (hnone : ∀ r ∈ st.reservations, r.OrderID ≠ payload.OrderID)
    (hpresent : ∀ l ∈ payload.Lines, ∃ row, st.stock l.Sku = some row)
    (hbad : ∃ l ∈ payload.Lines, l.Quantity ≤ 0)
    (hget : env.fault.getBySkus = false)
    (hmar : ∀ ev, (env.marshal ev).isSome = true)
    (hout : env.fault.outboxInsert 0 = false) :
    (∀ (s : StockItem) (q : Int), q ≤ 0 → s.CanReserve q = false) ∧
    ∃ (l : OrderPlacedLine) (m : OutboxMessage),
      payload.Lines.find? (lineFails st) = some l ∧
      HandleOrderPlaced env st payload = (none, { st with outbox := st.outbox ++ [m] }) ∧
      m.Type_ = "StockReservationFailed" ∧
      env.marshal (Event.StockReservationFailed payload.OrderID payload.UserID
        ("Not enough stock for sku " ++ l.Sku) env.now) = some m.PayloadJSON := by
  refine ⟨CanReserve_nonpos, ?_⟩
  obtain ⟨l0, hl0, hq0⟩ := hbad
  have hl0f : lineFails st l0 = true := by
    obtain ⟨row, hrow⟩ := hpresent l0 hl0
    rw [lineFails_iff]
    exact Or.inr ⟨row, hrow, Or.inl hq0⟩
  obtain ⟨l, hl⟩ : ∃ l, payload.Lines.find? (lineFails st) = some l := by
    cases h : payload.Lines.find? (lineFails st) with
    | some l => exact ⟨l, rfl⟩
    | none =>
      rw [List.find?_eq_none] at h
      exact absurd hl0f (h l0 hl0)
  have hlmem := List.mem_of_find?_eq_some hl
  obtain ⟨row, hrow⟩ := hpresent l hlmem
  have hreason : failReason st l = "Not enough stock for sku " ++ l.Sku := by
    simp [failReason, hrow]
  have hlines : payload.Lines ≠ [] := List.ne_nil_of_mem hl0
  have hff := firstFailure_select st payload.Lines
  rw [hl] at hff
  simp only [Option.map_some', hreason] at hff
  obtain ⟨js, hjs⟩ := Option.isSome_iff_exists.mp
    (hmar (NewStockReservationFailedEvent env.now payload.OrderID payload.UserID
      ("Not enough stock for sku " ++ l.Sku)))
  refine ⟨l, enqueuedRow env 0 (NewStockReservationFailedEvent env.now payload.OrderID
    payload.UserID ("Not enough stock for sku " ++ l.Sku)) js, hl, ?_, rfl, hjs⟩
  have hfind := find_order_none hnone
  have hskus : payload.Lines.map (fun l => l.Sku) ≠ [] := by simpa using hlines
  have hlen : payload.Lines.length ≠ 0 := by simpa using hlines
  unfold HandleOrderPlaced GetByOrderID GetBySkus
  rw [if_neg hid]
  cases hq : env.fault.getByOrderID <;>
    simp [hfind, hlen, hskus, hget, hff, Enqueue_ok env 0 st _ js hjs hout]

/-- Witness for C21: lines `[(A, 5), (B, 0)]` on `stateAB`, where `A` has 8
and `B` has 3 units available. -/
theorem HandleOrderPlaced_rejects_nonpositive_witness :
    (∀ (s : StockItem) (q : Int), q ≤ 0 → s.CanReserve q = false) ∧
    ∃ (l : OrderPlacedLine) (m : OutboxMessage),
      orderA5B0.Lines.find? (lineFails stateAB) = some l ∧
      HandleOrderPlaced envOk stateAB orderA5B0 =
        (none, { stateAB with outbox := stateAB.outbox ++ [m] }) ∧
      m.Type_ = "StockReservationFailed" ∧
      envOk.marshal (Event.StockReservationFailed orderA5B0.OrderID orderA5B0.UserID
        ("Not enough stock for sku " ++ l.Sku) envOk.now) = some m.PayloadJSON :=
  HandleOrderPlaced_rejects_nonpositive envOk stateAB orderA5B0 (by decide)
    (by intro r hr; simp [stateAB] at hr)
    (by
      intro l hl
      simp only [orderA5B0, List.mem_cons, List.mem_singleton, List.not_mem_nil, or_false] at hl
      rcases hl with rfl | rfl
      · exact ⟨⟨1, 8, 0, 5⟩, by decide⟩
      · exact ⟨⟨2, 3, 0, 5⟩, by decide⟩)
    ⟨⟨"B", 0⟩, by decide, by decide⟩ rfl (fun _ => rfl) rfl

/-- Claim C22. `DispatchOnce` returns an error exactly when `GetPendingBatch`
fails; it then returns that error with count 0, leaves the state as it is and
calls neither `Publish` nor `Save`. When `GetPendingBatch` answers, whatever
`Publish` and `Save` calls fail, `DispatchOnce` returns no error and counts
every record whose payload decoded and whose `Publish` succeeded; error and
count are the same with any other outcome `sf` of the `Save` calls. -/
theorem DispatchOnce_error_iff (env : DispatchEnv) (st : State) (maxRetry batchSize : Int) :
    ((DispatchOnce env st maxRetry batchSize).err ≠ none ↔
      ∃ e, GetPendingBatch env st maxRetry batchSize = .error e) ∧
    (∀ e, GetPendingBatch env st maxRetry batchSize = .error e →
      DispatchOnce env st maxRetry batchSize = ⟨0, some e, st, [], []⟩) ∧
    (∀ msgs, GetPendingBatch env st maxRetry batchSize = .ok msgs →
      (DispatchOnce env st maxRetry batchSize).err = none ∧
      (DispatchOnce env st maxRetry batchSize).count =
        ((msgs.enumFrom 0).filter (fun p =>
          env.decodes p.2.PayloadJSON && !env.publishFails p.1)).length) ∧
    ∀ sf : Nat → Bool,
      (DispatchOnce { env with saveFails := sf } st maxRetry batchSize).err =
        (DispatchOnce env st maxRetry batchSize).err ∧
      (DispatchOnce { env with saveFails := sf } st maxRetry batchSize).count =
        (DispatchOnce env st maxRetry batchSize).count := by
  have herr : ∀ e, GetPendingBatch env st maxRetry batchSize = .error e →
      DispatchOnce env st maxRetry batchSize = ⟨0, some e, st, [], []⟩ := by
    intro e h
    simp [DispatchOnce, h]
  have hok : ∀ msgs, GetPendingBatch env st maxRetry batchSize = .ok msgs →
      (DispatchOnce env st maxRetry batchSize).err = none ∧
      (DispatchOnce env st maxRetry batchSize).count =
        ((msgs.enumFrom 0).filter (fun p =>
          env.decodes p.2.PayloadJSON && !env.publishFails p.1)).length := by
    intro msgs h
    rw [DispatchOnce_of_batch env st maxRetry batchSize msgs h, dispatchLoop_err,
      dispatchLoop_count]
    exact ⟨rfl, rfl⟩
  refine ⟨?_, herr, hok, ?_⟩
  · constructor
    · intro hne
      cases h : GetPendingBatch env st maxRetry batchSize with
      | error e => exact ⟨e, rfl⟩
      | ok msgs => exact absurd (hok msgs h).1 hne
    · rintro ⟨e, h⟩
      rw [herr e h]
      simp
  · intro sf
    cases h : GetPendingBatch env st maxRetry batchSize with
    | error e =>
      have h' : GetPendingBatch { env with saveFails := sf } st maxRetry batchSize = .error e := h
      rw [herr e h]
      simp [DispatchOnce, h']
    | ok msgs =>
      have h' : GetPendingBatch { env with saveFails := sf } st maxRetry batchSize = .ok msgs := h
      rw [DispatchOnce_of_batch env st maxRetry batchSize msgs h,
        DispatchOnce_of_batch _ st maxRetry batchSize msgs h']
      simp only [dispatchLoop_err, dispatchLoop_count, and_self]

/-- Witness for C22 on `stateOutbox`: with every `Publish` succeeding and every
`Save` failing the pass returns 3 and no error; with the query failing it
returns the error, count 0, and calls nothing. -/
theorem DispatchOnce_error_iff_witness :
    (DispatchOnce (passWith (fun _ => false) (fun _ => true)) stateOutbox 3 10).err = none ∧
    (DispatchOnce (passWith (fun _ => false) (fun _ => true)) stateOutbox 3 10).count = 3 ∧
    DispatchOnce passQueryFails stateOutbox 3 10 =
      ⟨0, some Err.getPendingBatch, stateOutbox, [], []⟩ :=
  have h := (DispatchOnce_error_iff (passWith (fun _ => false) (fun _ => true)) stateOutbox 3
    10).2.2.1 batchOutbox rfl
  ⟨h.1, h.2.trans (by decide),
    (DispatchOnce_error_iff passQueryFails stateOutbox 3 10).2.1 Err.getPendingBatch rfl⟩

end Inventory
